import Mathlib

/-!
Shallow embedding of the poll-based reactor in `src/net/poll/src/reactor.rs`
(repository AreaLayer/nakamoto).

The reactor is a single-threaded event loop.  Its mutable state consists of
the peer table (`peers : HashMap<SocketAddr, Socket>`), the connecting set
(`connecting : HashSet<SocketAddr>`), the popol source registry
(`sources : popol::Sources<Source>`) with per-source interest masks, and the
timeout manager.  We embed that state as `RState`, with addresses and times
abstracted to naturals; the per-peer socket is represented by the only field
the reactor reads, its `Link`.

All interaction with the outside world (results of `socket.read`,
`protocol.write`, `dialer.dial`, `local_addr`/`set_nonblocking`, and the
readiness events returned by `wait_timeout`) is supplied as oracle data in
the environment; the protocol callbacks made by the reactor are recorded in
a trace of `PEvent`s, and the `socket.disconnect()` shutdown calls in the
`shut` log.
-/

set_option maxHeartbeats 1000000

namespace Nakamoto

/-- Peer addresses (`net::SocketAddr` in the source), abstracted to naturals. -/
abbrev Addr := Nat

/-- Monotonic time instants (`LocalTime` in the source), abstracted to naturals. -/
abbrev Time := Nat

/-- Direction of a connection (`Link` in `nakamoto_p2p::protocol`):
inbound connections are accepted, outbound ones are dialed. -/
inductive Link where
  | inbound
  | outbound
deriving DecidableEq, Repr

/-- Poll source identifiers (`enum Source` in `reactor.rs`). -/
inductive Src where
  | peer (a : Addr)
  | listener
  | waker
deriving DecidableEq, Repr

/-- A popol interest mask: a subset of {READ, WRITE}. -/
structure Interest where
  read : Bool
  write : Bool
deriving DecidableEq, Repr

/-- `popol::interest::ALL` (READ and WRITE). -/
def interestAll : Interest := ⟨true, true⟩

/-- `popol::interest::READ`. -/
def interestRead : Interest := ⟨true, false⟩

/-- Disconnect reasons (`DisconnectReason`); io-error payloads are abstracted
away since the reactor never inspects them. -/
inductive Reason where
  | peerDisconnected
  | connectionError
  | protocolReason
deriving DecidableEq, Repr

/-- Protocol callbacks made by the reactor, recorded as a trace.  `commandEv`
carries an abstract command, `receivedBytesEv` the byte count of the slice
passed to `protocol.received_bytes`. -/
inductive PEvent where
  | tickEv
  | wakeEv
  | commandEv (c : Nat)
  | attemptedEv (a : Addr)
  | connectedEv (a : Addr) (link : Link)
  | receivedBytesEv (a : Addr) (count : Nat)
  | disconnectedEv (a : Addr) (r : Reason)
deriving DecidableEq, Repr

/-! ### Association-list maps

`HashMap` / `popol::Sources` are embedded as association lists with
insert-replaces semantics; `lookup` finds the first binding. -/

/-- First binding of key `k`, like `HashMap::get`. -/
def alookup {κ β : Type} [DecidableEq κ] (k : κ) : List (κ × β) → Option β
  | [] => none
  | p :: rest => if p.1 = k then some p.2 else alookup k rest

/-- Remove every binding of key `k`, like `HashMap::remove`. -/
def aremove {κ β : Type} [DecidableEq κ] (k : κ) (l : List (κ × β)) : List (κ × β) :=
  l.filter (fun p => p.1 ≠ k)

/-- Insert a binding, replacing any previous binding of the key
(`HashMap::insert` / re-registration). -/
def ainsert {κ β : Type} [DecidableEq κ] (k : κ) (v : β) (l : List (κ × β)) : List (κ × β) :=
  (k, v) :: aremove k l

/-- Mutate the first binding of `k` in place (`get_mut`); a no-op when the
key is absent, mirroring the `if let Some(source) = ... get_mut` patterns. -/
def aupdate {κ β : Type} [DecidableEq κ] (k : κ) (f : β → β) : List (κ × β) → List (κ × β)
  | [] => []
  | p :: rest => if p.1 = k then (p.1, f p.2) :: rest else p :: aupdate k f rest

/-- Key list of an association list. -/
def akeys {κ β : Type} (l : List (κ × β)) : List κ := l.map (·.1)

/-- `HashSet::insert` on a list-as-set. -/
def insertS (a : Addr) (l : List Addr) : List Addr := if a ∈ l then l else a :: l

/-- `HashSet::remove` on a list-as-set. -/
def removeS (a : Addr) (l : List Addr) : List Addr := l.filter (fun b => b ≠ a)

/-! ### Reactor state -/

/-- The reactor state: `peers` is the PeerTable (each socket represented by
its `Link`), `connecting` the ConnectingSet, `sources` the popol SourceSet
with interest masks, `timeouts` the deadlines registered with the
TimeoutManager (all under the unit key), and `shut` an output log of the
addresses on which `socket.disconnect()` was invoked. -/
structure RState where
  peers : List (Addr × Link)
  connecting : List Addr
  sources : List (Src × Interest)
  timeouts : List Time
  shut : List Addr
deriving DecidableEq, Repr

/-- Key set of the PeerTable. -/
def peerKeys (s : RState) : List Addr := akeys s.peers

/-- The address of a peer source, `none` for listener and waker. -/
def srcAddr : Src → Option Addr
  | Src.peer a => some a
  | Src.listener => none
  | Src.waker => none

/-- Addresses `a` such that `Source::Peer(a)` is registered in a source list. -/
def srcPeersL (ss : List (Src × Interest)) : List Addr :=
  ss.filterMap (fun p => srcAddr p.1)

/-- Addresses `a` such that `Source::Peer(a)` is registered in the SourceSet. -/
def srcPeers (s : RState) : List Addr := srcPeersL s.sources

/-- The WRITE interest bit of `Source::Peer(a)`, when registered. -/
def writeBit (s : RState) (a : Addr) : Option Bool :=
  (alookup (Src.peer a) s.sources).map (·.write)

/-- `Reactor::register_peer`: register `Source::Peer(addr)` with interest
`ALL` and insert the socket into the peer table. -/
def registerPeer (s : RState) (addr : Addr) (link : Link) : RState :=
  { s with
    sources := ainsert (Src.peer addr) interestAll s.sources
    peers := ainsert addr link s.peers }

/-- `Reactor::unregister_peer`: drop the address from the connecting set,
the source set and the peer table, then synchronously tell the protocol
`disconnected(addr, reason)`. -/
def unregisterPeer (s : RState) (addr : Addr) (reason : Reason) : RState × List PEvent :=
  ({ s with
      connecting := removeS addr s.connecting
      sources := aremove (Src.peer addr) s.sources
      peers := aremove addr s.peers },
   [PEvent.disconnectedEv addr reason])

/-! ### Oracles for the outside world -/

/-- Result of the single non-blocking `socket.read` in `handle_readable`. -/
inductive ReadResult where
  | ok (count : Nat)
  | wouldBlock
  | err
deriving DecidableEq, Repr

/-- Result of `protocol.write(&addr, socket)` in `handle_writable`.
`wouldBlock` and `writeZero` are the two error kinds the source treats as
"partial write"; `otherErr` is any other error. -/
inductive WriteResult where
  | ok
  | wouldBlock
  | writeZero
  | otherErr
deriving DecidableEq, Repr

/-- Result of `dialer.dial(&addr)` in the `Connect` intent. -/
inductive DialResult where
  | ok
  | alreadyExists
  | err
deriving DecidableEq, Repr

/-- How a piece of the loop finished: `running` continues the loop,
`stopped` is the clean shutdown `return Ok(())`, `fatal` is an `Err`
propagated out of `run` by a `?` operator, `panicked` marks a reached
`unwrap()` on `None` (which in Rust would abort). -/
inductive Outcome where
  | running
  | stopped
  | fatal
  | panicked
deriving DecidableEq, Repr

/-- `READ_BUFFER_SIZE` in the source: the fixed scratch buffer is
`[0; 1024 * 192]`, i.e. 192 KiB. -/
def READ_BUFFER_SIZE : Nat := 1024 * 192

/-! ### Handlers -/

/-- `Reactor::handle_readable`.  If the address is no longer in the peer
table the event is skipped.  Otherwise one non-blocking read is performed:
`count > 0` yields `received_bytes`, `count = 0` is an orderly shutdown
(disconnect and unregister with `PeerDisconnected`), `WouldBlock` is
tolerated, any other error disconnects and unregisters with
`ConnectionError`. -/
def handleReadable (s : RState) (addr : Addr) (res : ReadResult) : RState × List PEvent :=
  match alookup addr s.peers with
  | none => (s, [])
  | some _ =>
    match res with
    | ReadResult.ok count =>
      if count > 0 then
        (s, [PEvent.receivedBytesEv addr count])
      else
        unregisterPeer { s with shut := s.shut ++ [addr] } addr Reason.peerDisconnected
    | ReadResult.wouldBlock => (s, [])
    | ReadResult.err =>
      unregisterPeer { s with shut := s.shut ++ [addr] } addr Reason.connectionError

/-- `Reactor::handle_writable`.  The source and the socket are looked up
with `unwrap()` (the `panicked` branch).  If the address was in the
connecting set it is removed and — after `socket.local_address()?`, whose
failure (`localAddrOk = false`) propagates as `fatal` — the protocol is told
`connected(addr, local_addr, socket.link)`.  Then `protocol.write` runs:
`Ok` clears WRITE interest, `WouldBlock`/`WriteZero` set it, any other error
shuts the socket down and unregisters with `ConnectionError`. -/
def handleWritable (s : RState) (addr : Addr) (localAddrOk : Bool) (res : WriteResult) :
    RState × List PEvent × Outcome :=
  match alookup (Src.peer addr) s.sources, alookup addr s.peers with
  | some _, some link =>
    let wasConnecting : Bool := decide (addr ∈ s.connecting)
    let s1 := { s with connecting := removeS addr s.connecting }
    if wasConnecting && !localAddrOk then
      (s1, [], Outcome.fatal)
    else
      let connectEvs := if wasConnecting then [PEvent.connectedEv addr link] else []
      match res with
      | WriteResult.ok =>
        ({ s1 with sources := aupdate (Src.peer addr) (fun i => { i with write := false }) s1.sources },
         connectEvs, Outcome.running)
      | WriteResult.wouldBlock =>
        ({ s1 with sources := aupdate (Src.peer addr) (fun i => { i with write := true }) s1.sources },
         connectEvs, Outcome.running)
      | WriteResult.writeZero =>
        ({ s1 with sources := aupdate (Src.peer addr) (fun i => { i with write := true }) s1.sources },
         connectEvs, Outcome.running)
      | WriteResult.otherErr =>
        let (s2, evs) :=
          unregisterPeer { s1 with shut := s1.shut ++ [addr] } addr Reason.connectionError
        (s2, connectEvs ++ evs, Outcome.running)
  | _, _ => (s, [], Outcome.panicked)

/-- One accepted connection from the listener: remote address plus the
results of `conn.set_nonblocking(true)?` and `conn.local_addr()?` (both
propagate as `fatal` when they fail). -/
structure Accept where
  addr : Addr
  nonblockOk : Bool
  localAddrOk : Bool
deriving DecidableEq, Repr

/-- One step of the accept loop: on success the connection is registered as
an inbound peer and the protocol is told `connected(addr, local_addr,
Inbound)`. -/
def handleAccept (s : RState) (ac : Accept) : RState × List PEvent × Outcome :=
  if !ac.nonblockOk then (s, [], Outcome.fatal)
  else if !ac.localAddrOk then (s, [], Outcome.fatal)
  else (registerPeer s ac.addr Link.inbound,
        [PEvent.connectedEv ac.addr Link.inbound], Outcome.running)

/-- The listener readiness handler: accept in a loop.  The oracle list holds
the successful accepts; the loop ends when `accept` returns `WouldBlock` or
any other accept error (both `break` in the source, the latter after
logging). -/
def handleListener (s : RState) : List Accept → RState × List PEvent × Outcome
  | [] => (s, [], Outcome.running)
  | ac :: rest =>
    match handleAccept s ac with
    | (s1, evs, Outcome.running) =>
      let r := handleListener s1 rest
      (r.1, evs ++ r.2.1, r.2.2)
    | r => r

/-- The readiness flags popol reports for a peer source, bundled with the
oracle results the handlers would consume when dispatching it:
`localAddrOk` for `socket.local_address()?`, `writeRes` for
`protocol.write`, `readRes` for `socket.read`. -/
structure PeerReadiness where
  readable : Bool
  writable : Bool
  errored : Bool
  hangup : Bool
  invalid : Bool
  localAddrOk : Bool
  writeRes : WriteResult
  readRes : ReadResult
deriving DecidableEq, Repr

/-- One readiness event as returned by `wait_timeout`, bundled with the
oracle data its handling consumes. -/
inductive EvInput where
  | peer (a : Addr) (r : PeerReadiness)
  | listener (accepts : List Accept)
  | waker (shutdownPending : Bool) (cmds : List Nat)
deriving DecidableEq, Repr

/-- The source of an event input. -/
def evSrc : EvInput → Src
  | EvInput.peer a _ => Src.peer a
  | EvInput.listener _ => Src.listener
  | EvInput.waker _ _ => Src.waker

/-- Handling of a readiness event on `Source::Peer(addr)` in `run`'s `for`
loop.  `invalid` unregisters the source only (the peer table is not
touched) and continues; `errored`/`hangup` are only logged; `writable` is
handled before `readable`, and a `fatal`/`panicked` writable handler stops
the loop before the readable handler runs. -/
def handlePeerEvent (s : RState) (a : Addr) (r : PeerReadiness) :
    RState × List PEvent × Outcome :=
  if r.invalid then
    ({ s with sources := aremove (Src.peer a) s.sources }, [], Outcome.running)
  else
    let w := if r.writable then handleWritable s a r.localAddrOk r.writeRes
             else (s, [], Outcome.running)
    match w with
    | (s1, evs1, Outcome.running) =>
      let rd := if r.readable then handleReadable s1 a r.readRes else (s1, [])
      (rd.1, evs1 ++ rd.2, Outcome.running)
    | other => other

/-- Dispatch of one readiness event.  A waker event first checks the
shutdown channel (clean `return Ok(())`), then drains the pending commands
into `protocol.command`. -/
def handleEvent (s : RState) : EvInput → RState × List PEvent × Outcome
  | EvInput.peer a r => handlePeerEvent s a r
  | EvInput.listener accepts => handleListener s accepts
  | EvInput.waker shutdownPending cmds =>
    if shutdownPending then (s, [], Outcome.stopped)
    else (s, cmds.map PEvent.commandEv, Outcome.running)

/-- The `for (source, ev) in events.iter()` loop of `run`: events are
dispatched in order; shutdown, a propagated error or a panic stops the
batch. -/
def dispatchEvents (s : RState) : List EvInput → RState × List PEvent × Outcome
  | [] => (s, [], Outcome.running)
  | e :: rest =>
    match handleEvent s e with
    | (s1, evs1, Outcome.running) =>
      let r := dispatchEvents s1 rest
      (r.1, evs1 ++ r.2.1, r.2.2)
    | r => r

/-! ### Protocol intents and `process` -/

/-- Protocol output intents (`Io` in `src/p2p/src/traits.rs`).  The
`connect` intent carries the oracle result of `dialer.dial(&addr)`; the
`event` intent carries an abstract published event. -/
inductive Intent where
  | write (a : Addr)
  | connect (a : Addr) (res : DialResult)
  | disconnect (a : Addr) (r : Reason)
  | wakeup (d : Nat)
  | event (e : Nat)
deriving DecidableEq, Repr

/-- Modelled from the spec: `TimeoutManager::register` (§4.1, the manager is
not under `src/`) inserts an entry with the given deadline. -/
def tmRegister (tm : List Time) (deadline : Time) : List Time :=
  deadline :: tm

/-- Modelled from the spec: `TimeoutManager::wake(now, out)` (§4.1, the
manager is not under `src/`) removes every expired entry (deadline ≤ now)
from the queue and appends it to `out`; the result is (remaining, expired). -/
def tmWake (tm : List Time) (now : Time) : List Time × List Time :=
  (tm.filter (fun d => now < d), tm.filter (fun d => d ≤ now))

/-- Enactment of one protocol intent (one arm of the `match out` in
`Reactor::process`). -/
def processOne (s : RState) (now : Time) : Intent → RState × List PEvent
  | Intent.write a =>
    ({ s with sources := aupdate (Src.peer a) (fun i => { i with write := true }) s.sources }, [])
  | Intent.connect a res =>
    match res with
    | DialResult.ok =>
      let s1 := registerPeer s a Link.outbound
      ({ s1 with connecting := insertS a s1.connecting }, [PEvent.attemptedEv a])
    | DialResult.alreadyExists => (s, [])
    | DialResult.err => (s, [PEvent.disconnectedEv a Reason.connectionError])
  | Intent.disconnect a r =>
    match alookup a s.peers with
    | some _ => unregisterPeer { s with shut := s.shut ++ [a] } a r
    | none => (s, [])
  | Intent.wakeup d => ({ s with timeouts := tmRegister s.timeouts (now + d) }, [])
  | Intent.event _ => (s, [])

/-- `Reactor::process`: drain the protocol intents in order. -/
def process (s : RState) (now : Time) : List Intent → RState × List PEvent
  | [] => (s, [])
  | i :: rest =>
    let r1 := processOne s now i
    let r2 := process r1.1 now rest
    (r2.1, r1.2 ++ r2.2)

/-! ### The event loop -/

/-- Outcome of `sources.wait_timeout`: readiness events, the `TimedOut`
error kind, or any other error (which `run` propagates). -/
inductive WaitResult where
  | ready (evs : List EvInput)
  | timedOut
  | waitErr
deriving DecidableEq, Repr

/-- The environment of one loop iteration: the `wait_timeout` outcome (with
its oracle data), the refreshed clock, and the intents the subsequent
`protocol.drain()` yields. -/
structure IterEnv where
  wait : WaitResult
  now : Time
  intents : List Intent
deriving DecidableEq, Repr

/-- One iteration of the `loop` in `Reactor::run`: `protocol.tick` is
called right after `wait_timeout` returns; a `Ready` result dispatches the
event batch and then runs `process`; a `TimedOut` result drains the expired
timers and calls `protocol.wake()` once if any expired, then runs
`process`; any other `wait_timeout` error returns `Err` (no `process`).
Shutdown, errors and panics skip `process` as in the source. -/
def iterate (s : RState) (env : IterEnv) : RState × List PEvent × Outcome :=
  match env.wait with
  | WaitResult.ready evs =>
    match dispatchEvents s evs with
    | (s1, evs1, Outcome.running) =>
      let r := process s1 env.now env.intents
      (r.1, PEvent.tickEv :: (evs1 ++ r.2), Outcome.running)
    | (s1, evs1, o) => (s1, PEvent.tickEv :: evs1, o)
  | WaitResult.timedOut =>
    let w := tmWake s.timeouts env.now
    let s1 := { s with timeouts := w.1 }
    let wakeEvs := if w.2.isEmpty then [] else [PEvent.wakeEv]
    let r := process s1 env.now env.intents
    (r.1, PEvent.tickEv :: (wakeEvs ++ r.2), Outcome.running)
  | WaitResult.waitErr => (s, [PEvent.tickEv], Outcome.fatal)

/-- The reactor loop folded over a finite schedule of iteration
environments; it stops early on shutdown, a fatal error or a panic. -/
def runLoop (s : RState) : List IterEnv → RState × List PEvent × Outcome
  | [] => (s, [], Outcome.running)
  | env :: rest =>
    match iterate s env with
    | (s1, t1, Outcome.running) =>
      let r := runLoop s1 rest
      (r.1, t1 ++ r.2.1, r.2.2)
    | r => r

/-- The reactor state right after `Reactor::new` (no listener): only the
waker source is registered. -/
def initState : RState :=
  { peers := [], connecting := [], sources := [(Src.waker, interestRead)],
    timeouts := [], shut := [] }

/-- The reactor state at the top of the loop when `run` was given listen
addresses: the waker plus the listener source (registered with READ
interest). -/
def initListen : RState :=
  { initState with sources := ainsert Src.listener interestRead initState.sources }

/-! ### Environment predicates and specification-side definitions -/

/-- No peer event in this input reports `invalid`. -/
def evNoInvalid : EvInput → Bool
  | EvInput.peer _ r => !r.invalid
  | EvInput.listener _ => true
  | EvInput.waker _ _ => true

/-- No peer event of the iteration reports `invalid`. -/
def envNoInvalid (env : IterEnv) : Bool :=
  match env.wait with
  | WaitResult.ready evs => evs.all evNoInvalid
  | WaitResult.timedOut => true
  | WaitResult.waitErr => true

/-- The `set_nonblocking` and `local_addr` oracle results of an accepted
connection both succeed. -/
def acceptNoFatal (ac : Accept) : Bool := ac.nonblockOk && ac.localAddrOk

/-- The oracle results of this event cannot make a `?` operator in the loop
body propagate an error: every accept survives `set_nonblocking`/
`local_addr`, and a writable peer event survives `local_address`. -/
def evNoFatal : EvInput → Bool
  | EvInput.peer _ r => !r.writable || r.localAddrOk
  | EvInput.listener accepts => accepts.all acceptNoFatal
  | EvInput.waker _ _ => true

/-- The iteration environment contains no error that `run` would propagate:
`wait_timeout` did not fail with a non-timeout error, and no
`set_nonblocking`/`local_addr`/`local_address` oracle fails. -/
def envNoFatal (env : IterEnv) : Bool :=
  match env.wait with
  | WaitResult.ready evs => evs.all evNoFatal
  | WaitResult.timedOut => true
  | WaitResult.waitErr => false

/-! #### Per-address connection phases (for the causal-ordering claims)

The per-address life cycle visible in the reactor state: `idle` (not in
the peer table), `connecting` (registered, non-blocking connect pending),
`connected` (registered, connect completed or inbound). -/

/-- Connection phase of one address. -/
inductive Phase where
  | idle
  | connecting
  | connected
deriving DecidableEq, Repr

/-- The phase of address `a` as recorded in the reactor state. -/
def phaseOf (s : RState) (a : Addr) : Phase :=
  if a ∈ peerKeys s then
    (if a ∈ s.connecting then Phase.connecting else Phase.connected)
  else Phase.idle

/-- Is this protocol callback about address `a`? -/
def isAddrEv (a : Addr) : PEvent → Bool
  | PEvent.attemptedEv b => decide (a = b)
  | PEvent.connectedEv b _ => decide (a = b)
  | PEvent.receivedBytesEv b _ => decide (a = b)
  | PEvent.disconnectedEv b _ => decide (a = b)
  | PEvent.tickEv => false
  | PEvent.wakeEv => false
  | PEvent.commandEv _ => false

/-- The subsequence of a trace consisting of the callbacks for address `a`. -/
def projAddr (a : Addr) (t : List PEvent) : List PEvent := t.filter (isAddrEv a)

/-- The per-address callback automaton actually realised by the reactor:
each connection episode is `attempted (connected received_bytes*)?
disconnected`, `connected received_bytes* disconnected` (inbound), or a
bare `disconnected` (dial failure, which emits no `attempted`); episodes
may repeat because an address can reconnect after a disconnect. -/
def stepPhase : Phase → PEvent → Option Phase
  | Phase.idle, PEvent.attemptedEv _ => some Phase.connecting
  | Phase.idle, PEvent.connectedEv _ _ => some Phase.connected
  | Phase.idle, PEvent.disconnectedEv _ _ => some Phase.idle
  | Phase.connecting, PEvent.connectedEv _ _ => some Phase.connected
  | Phase.connecting, PEvent.disconnectedEv _ _ => some Phase.idle
  | Phase.connected, PEvent.receivedBytesEv _ _ => some Phase.connected
  | Phase.connected, PEvent.disconnectedEv _ _ => some Phase.idle
  | _, _ => none

/-- Run the per-address automaton over a callback sequence; `none` means
the sequence is not generated by any interleaving of episodes. -/
def runPhase : Phase → List PEvent → Option Phase
  | p, [] => some p
  | p, e :: rest =>
    match stepPhase p e with
    | some p1 => runPhase p1 rest
    | none => none

/-- States of the automaton for the life cycle exactly as the claim states
it: `attempted? connected received_bytes* disconnected`, with the
`attempted`-without-`connected` dial-failure variant the claim mentions,
and `disconnected` final (at most one, always last). -/
inductive CPhase where
  | start
  | tried
  | linked
  | closed
deriving DecidableEq, Repr

/-- Transitions of the claimed per-peer regular expression. -/
def claimedStep : CPhase → PEvent → Option CPhase
  | CPhase.start, PEvent.attemptedEv _ => some CPhase.tried
  | CPhase.start, PEvent.connectedEv _ _ => some CPhase.linked
  | CPhase.tried, PEvent.connectedEv _ _ => some CPhase.linked
  | CPhase.tried, PEvent.disconnectedEv _ _ => some CPhase.closed
  | CPhase.linked, PEvent.receivedBytesEv _ _ => some CPhase.linked
  | CPhase.linked, PEvent.disconnectedEv _ _ => some CPhase.closed
  | _, _ => none

/-- Run the claimed automaton; `none` means the sequence is not even a
prefix of a word of the claimed regular expression. -/
def claimedRun : CPhase → List PEvent → Option CPhase
  | p, [] => some p
  | p, e :: rest =>
    match claimedStep p e with
    | some p1 => claimedRun p1 rest
    | none => none

/-! #### Environment validity (OS/TCP/protocol contract)

The amended causal-ordering theorem assumes the environment respects the
operating-system and dialer contracts: a socket still in the connecting
set cannot deliver data (TCP produces no bytes before the non-blocking
connect completes), an accepted connection has a fresh remote address
(a live TCP 4-tuple is unique), and the protocol only asks to dial
addresses that are not currently registered (the dialer reports an attempt
already in flight as `AlreadyExists`).  Each check runs against the state
at the moment the corresponding oracle datum is consumed. -/

/-- Oracle validity for one peer readiness event: a read returning data is
impossible while the address is still in the connecting set (checked after
the writable half of the same event, which may have completed the
connect). -/
def validPeerEv (s : RState) (a : Addr) (r : PeerReadiness) : Bool :=
  if r.invalid then true
  else
    match (if r.writable then handleWritable s a r.localAddrOk r.writeRes
           else (s, [], Outcome.running)) with
    | (s1, _, Outcome.running) =>
      if r.readable then
        match r.readRes with
        | ReadResult.ok count => decide (count = 0) || !(decide (a ∈ s1.connecting))
        | ReadResult.wouldBlock => true
        | ReadResult.err => true
      else true
    | _ => true

/-- Oracle validity of the accept list: each successfully accepted
connection has an address that is not a currently registered peer. -/
def validAccepts : RState → List Accept → Bool
  | _, [] => true
  | s, ac :: rest =>
    match handleAccept s ac with
    | (s1, _, Outcome.running) => !(decide (ac.addr ∈ peerKeys s)) && validAccepts s1 rest
    | _ => true

/-- Oracle validity of one readiness event. -/
def validEvent (s : RState) : EvInput → Bool
  | EvInput.peer a r => validPeerEv s a r
  | EvInput.listener accepts => validAccepts s accepts
  | EvInput.waker _ _ => true

/-- Oracle validity of a readiness batch, checked in dispatch order. -/
def validEvents : RState → List EvInput → Bool
  | _, [] => true
  | s, e :: rest =>
    validEvent s e &&
      match handleEvent s e with
      | (s1, _, Outcome.running) => validEvents s1 rest
      | _ => true

/-- Protocol/dialer validity of one intent: `Connect` is only emitted (and
dialed) for addresses that are not currently registered peers. -/
def validIntent (s : RState) : Intent → Bool
  | Intent.connect a res =>
    match res with
    | DialResult.ok => !(decide (a ∈ peerKeys s))
    | DialResult.alreadyExists => true
    | DialResult.err => !(decide (a ∈ peerKeys s))
  | Intent.write _ => true
  | Intent.disconnect _ _ => true
  | Intent.wakeup _ => true
  | Intent.event _ => true

/-- Validity of a drained intent sequence, checked in processing order. -/
def validIntents (now : Time) : RState → List Intent → Bool
  | _, [] => true
  | s, i :: rest => validIntent s i && validIntents now (processOne s now i).1 rest

/-- Validity of one iteration environment. -/
def validIter (s : RState) (env : IterEnv) : Bool :=
  match env.wait with
  | WaitResult.ready evs =>
    validEvents s evs &&
      (match dispatchEvents s evs with
       | (s1, _, Outcome.running) => validIntents env.now s1 env.intents
       | _ => true)
  | WaitResult.timedOut =>
    validIntents env.now { s with timeouts := (tmWake s.timeouts env.now).1 } env.intents
  | WaitResult.waitErr => true

/-- Validity of a whole schedule, checked iteration by iteration. -/
def validRun : RState → List IterEnv → Bool
  | _, [] => true
  | s, env :: rest =>
    validIter s env &&
      match iterate s env with
      | (s1, _, Outcome.running) => validRun s1 rest
      | _ => true

/-- Number of occurrences of one callback in a trace. -/
def countEv (e : PEvent) (t : List PEvent) : Nat :=
  (t.filter (fun x => x = e)).length

/-- Simulation invariant of one reactor step for the per-address callback
automaton: the callbacks for `a` emitted by the step drive the automaton
from the phase of the pre-state to some phase, which coincides with the
phase of the post-state whenever the step lets the loop continue. -/
def PhaseInv (s s' : RState) (t : List PEvent) (out : Outcome) (a : Addr) : Prop :=
  ∃ p', runPhase (phaseOf s a) (projAddr a t) = some p' ∧
    (out = Outcome.running → p' = phaseOf s' a)

/-- `k` successive invocations of the writable handler whose
`protocol.write` keeps answering `WouldBlock` (backpressure). -/
def repeatWritableWB (s : RState) (a : Addr) : Nat → RState
  | 0 => s
  | n + 1 => repeatWritableWB (handleWritable s a true WriteResult.wouldBlock).1 a n

/-! ### Association-list and set lemmas -/

theorem mem_akeys_iff {κ β : Type} (k : κ) (l : List (κ × β)) :
    k ∈ akeys l ↔ ∃ p ∈ l, p.1 = k := by
  simp [akeys, List.mem_map]

theorem alookup_isSome_iff {κ β : Type} [DecidableEq κ] (k : κ) (l : List (κ × β)) :
    (alookup k l).isSome ↔ k ∈ akeys l := by
  induction l with
  | nil => simp [alookup, akeys]
  | cons p rest ih =>
    by_cases h : p.1 = k
    · simp [alookup, akeys, h]
    · simp [alookup, akeys, h, ih, eq_comm]
      intro hk
      exact absurd hk.symm h

theorem alookup_eq_none_iff {κ β : Type} [DecidableEq κ] (k : κ) (l : List (κ × β)) :
    alookup k l = none ↔ k ∉ akeys l := by
  rw [← alookup_isSome_iff]
  cases alookup k l <;> simp

theorem mem_akeys_aremove {κ β : Type} [DecidableEq κ] (a k : κ) (l : List (κ × β)) :
    a ∈ akeys (aremove k l) ↔ a ∈ akeys l ∧ a ≠ k := by
  simp only [akeys, aremove, List.mem_map, List.mem_filter]
  constructor
  · rintro ⟨p, ⟨hp, hne⟩, rfl⟩
    refine ⟨⟨p, hp, rfl⟩, ?_⟩
    simpa using hne
  · rintro ⟨⟨p, hp, rfl⟩, hne⟩
    exact ⟨p, ⟨hp, by simpa using hne⟩, rfl⟩

theorem akeys_ainsert {κ β : Type} [DecidableEq κ] (k : κ) (v : β) (l : List (κ × β)) :
    akeys (ainsert k v l) = k :: akeys (aremove k l) := rfl

theorem mem_akeys_ainsert {κ β : Type} [DecidableEq κ] (a k : κ) (v : β) (l : List (κ × β)) :
    a ∈ akeys (ainsert k v l) ↔ a = k ∨ a ∈ akeys l := by
  rw [akeys_ainsert, List.mem_cons, mem_akeys_aremove]
  by_cases hak : a = k <;> simp [hak]

theorem akeys_aupdate {κ β : Type} [DecidableEq κ] (k : κ) (f : β → β) (l : List (κ × β)) :
    akeys (aupdate k f l) = akeys l := by
  induction l with
  | nil => rfl
  | cons p rest ih =>
    by_cases h : p.1 = k
    · simp [aupdate, h, akeys]
    · simp only [aupdate, if_neg h, akeys, List.map_cons]
      simpa [akeys] using ih

theorem alookup_ainsert_self {κ β : Type} [DecidableEq κ] (k : κ) (v : β) (l : List (κ × β)) :
    alookup k (ainsert k v l) = some v := by
  simp [ainsert, alookup]

theorem alookup_ainsert_ne {κ β : Type} [DecidableEq κ] {a k : κ} (v : β) (l : List (κ × β))
    (h : a ≠ k) : alookup a (ainsert k v l) = alookup a (aremove k l) := by
  have hk : ¬ (k = a) := fun hc => h hc.symm
  simp [ainsert, alookup, hk]

theorem alookup_aremove_self {κ β : Type} [DecidableEq κ] (k : κ) (l : List (κ × β)) :
    alookup k (aremove k l) = none := by
  rw [alookup_eq_none_iff]
  simp [mem_akeys_aremove]

theorem alookup_aremove_ne {κ β : Type} [DecidableEq κ] {a k : κ} (l : List (κ × β))
    (h : a ≠ k) : alookup a (aremove k l) = alookup a l := by
  induction l with
  | nil => rfl
  | cons p rest ih =>
    by_cases hk : p.1 = k
    · have hpa : p.1 ≠ a := fun hc => h (hc.symm.trans hk)
      have h1 : aremove k (p :: rest) = aremove k rest := by
        simp [aremove, List.filter_cons, hk]
      rw [h1, ih]
      simp [alookup, hpa]
    · have h1 : aremove k (p :: rest) = p :: aremove k rest := by
        simp [aremove, List.filter_cons, hk]
      rw [h1]
      by_cases hpa : p.1 = a
      · simp [alookup, hpa]
      · simp [alookup, hpa, ih]

theorem alookup_aupdate_self {κ β : Type} [DecidableEq κ] (k : κ) (f : β → β) (l : List (κ × β)) :
    alookup k (aupdate k f l) = (alookup k l).map f := by
  induction l with
  | nil => rfl
  | cons p rest ih =>
    by_cases h : p.1 = k
    · simp [aupdate, alookup, h]
    · simp [aupdate, alookup, h, ih]

theorem alookup_aupdate_ne {κ β : Type} [DecidableEq κ] {a k : κ} (f : β → β)
    (l : List (κ × β)) (h : a ≠ k) : alookup a (aupdate k f l) = alookup a l := by
  induction l with
  | nil => rfl
  | cons p rest ih =>
    have hka : ¬ (k = a) := fun hc => h hc.symm
    by_cases hk : p.1 = k
    · have hpa : p.1 ≠ a := fun hc => h (hc.symm.trans hk)
      simp [aupdate, hk, alookup, hpa, hka]
    · by_cases hpa : p.1 = a
      · simp [aupdate, hk, alookup, hpa, hka, h]
      · simp [aupdate, hk, alookup, hpa, hka, h, ih]

theorem mem_removeS (a b : Addr) (l : List Addr) :
    a ∈ removeS b l ↔ a ∈ l ∧ a ≠ b := by
  simp [removeS, List.mem_filter]

theorem mem_insertS (a b : Addr) (l : List Addr) :
    a ∈ insertS b l ↔ a = b ∨ a ∈ l := by
  by_cases h : b ∈ l
  · simp [insertS, h]
    intro he; subst he; exact h
  · simp [insertS, h]

theorem mem_srcPeersL_iff (a : Addr) (ss : List (Src × Interest)) :
    a ∈ srcPeersL ss ↔ Src.peer a ∈ akeys ss := by
  rw [mem_akeys_iff]
  simp only [srcPeersL, List.mem_filterMap]
  constructor
  · rintro ⟨p, hp, hsa⟩
    refine ⟨p, hp, ?_⟩
    cases hps : p.1 with
    | peer b =>
      rw [hps] at hsa
      simp only [srcAddr, Option.some.injEq] at hsa
      rw [hsa]
    | listener =>
      rw [hps] at hsa
      simp [srcAddr] at hsa
    | waker =>
      rw [hps] at hsa
      simp [srcAddr] at hsa
  · rintro ⟨p, hp, hk⟩
    exact ⟨p, hp, by rw [hk]; rfl⟩

/-! ### Coherence invariants -/

/-- The surviving half of registration coherence: every address with a
registered peer source is in the peer table, and the connecting set is
contained in the peer table. -/
def WeakCoherent (s : RState) : Prop :=
  (∀ a ∈ srcPeers s, a ∈ peerKeys s) ∧ ∀ a ∈ s.connecting, a ∈ peerKeys s

/-- Full registration coherence as claimed: the registered peer sources
coincide with the peer-table keys, and the connecting set is contained in
the peer table. -/
def Coherent (s : RState) : Prop :=
  (∀ a ∈ srcPeers s, a ∈ peerKeys s) ∧ (∀ a ∈ peerKeys s, a ∈ srcPeers s) ∧
    ∀ a ∈ s.connecting, a ∈ peerKeys s

instance (s : RState) : Decidable (WeakCoherent s) := by
  unfold WeakCoherent; infer_instance

instance (s : RState) : Decidable (Coherent s) := by
  unfold Coherent; infer_instance

theorem Coherent.weak {s : RState} (h : Coherent s) : WeakCoherent s :=
  ⟨h.1, h.2.2⟩

/-! ### Membership after each state operation -/

theorem mem_srcPeersL_aupdate (b : Addr) (k : Src) (f : Interest → Interest)
    (ss : List (Src × Interest)) :
    b ∈ srcPeersL (aupdate k f ss) ↔ b ∈ srcPeersL ss := by
  rw [mem_srcPeersL_iff, mem_srcPeersL_iff, akeys_aupdate]

theorem mem_peerKeys_registerPeer {s : RState} {a : Addr} {link : Link} {b : Addr} :
    b ∈ peerKeys (registerPeer s a link) ↔ b = a ∨ b ∈ peerKeys s := by
  simp [registerPeer, peerKeys, mem_akeys_ainsert]

theorem mem_srcPeers_registerPeer {s : RState} {a : Addr} {link : Link} {b : Addr} :
    b ∈ srcPeers (registerPeer s a link) ↔ b = a ∨ b ∈ srcPeers s := by
  simp [registerPeer, srcPeers, mem_srcPeersL_iff, mem_akeys_ainsert]

theorem connecting_registerPeer (s : RState) (a : Addr) (link : Link) :
    (registerPeer s a link).connecting = s.connecting := rfl

theorem mem_peerKeys_unregisterPeer {s : RState} {a : Addr} {r : Reason} {b : Addr} :
    b ∈ peerKeys (unregisterPeer s a r).1 ↔ b ∈ peerKeys s ∧ b ≠ a := by
  simp [unregisterPeer, peerKeys, mem_akeys_aremove]

theorem mem_srcPeers_unregisterPeer {s : RState} {a : Addr} {r : Reason} {b : Addr} :
    b ∈ srcPeers (unregisterPeer s a r).1 ↔ b ∈ srcPeers s ∧ b ≠ a := by
  simp [unregisterPeer, srcPeers, mem_srcPeersL_iff, mem_akeys_aremove]

theorem mem_connecting_unregisterPeer {s : RState} {a : Addr} {r : Reason} {b : Addr} :
    b ∈ (unregisterPeer s a r).1.connecting ↔ b ∈ s.connecting ∧ b ≠ a := by
  simp [unregisterPeer, mem_removeS]

/-! ### Coherence preservation, operation by operation -/

theorem wcoh_shut {s : RState} {l : List Addr} (h : WeakCoherent s) :
    WeakCoherent { s with shut := l } := h

theorem coh_shut {s : RState} {l : List Addr} (h : Coherent s) :
    Coherent { s with shut := l } := h

theorem wcoh_timeouts {s : RState} {l : List Time} (h : WeakCoherent s) :
    WeakCoherent { s with timeouts := l } := h

theorem coh_timeouts {s : RState} {l : List Time} (h : Coherent s) :
    Coherent { s with timeouts := l } := h

theorem wcoh_registerPeer {s : RState} {a : Addr} {link : Link} (h : WeakCoherent s) :
    WeakCoherent (registerPeer s a link) := by
  obtain ⟨h1, h2⟩ := h
  constructor
  · intro b hb
    rw [mem_srcPeers_registerPeer] at hb
    rw [mem_peerKeys_registerPeer]
    exact hb.imp id (h1 b)
  · intro b hb
    rw [connecting_registerPeer] at hb
    rw [mem_peerKeys_registerPeer]
    exact Or.inr (h2 b hb)

theorem coh_registerPeer {s : RState} {a : Addr} {link : Link} (h : Coherent s) :
    Coherent (registerPeer s a link) := by
  obtain ⟨h1, h2, h3⟩ := h
  refine ⟨?_, ?_, ?_⟩
  · intro b hb
    rw [mem_srcPeers_registerPeer] at hb
    rw [mem_peerKeys_registerPeer]
    exact hb.imp id (h1 b)
  · intro b hb
    rw [mem_peerKeys_registerPeer] at hb
    rw [mem_srcPeers_registerPeer]
    exact hb.imp id (h2 b)
  · intro b hb
    rw [connecting_registerPeer] at hb
    rw [mem_peerKeys_registerPeer]
    exact Or.inr (h3 b hb)

theorem wcoh_unregisterPeer {s : RState} {a : Addr} {r : Reason} (h : WeakCoherent s) :
    WeakCoherent (unregisterPeer s a r).1 := by
  obtain ⟨h1, h2⟩ := h
  constructor
  · intro b hb
    rw [mem_srcPeers_unregisterPeer] at hb
    rw [mem_peerKeys_unregisterPeer]
    exact ⟨h1 b hb.1, hb.2⟩
  · intro b hb
    rw [mem_connecting_unregisterPeer] at hb
    rw [mem_peerKeys_unregisterPeer]
    exact ⟨h2 b hb.1, hb.2⟩

theorem coh_unregisterPeer {s : RState} {a : Addr} {r : Reason} (h : Coherent s) :
    Coherent (unregisterPeer s a r).1 := by
  obtain ⟨h1, h2, h3⟩ := h
  refine ⟨?_, ?_, ?_⟩
  · intro b hb
    rw [mem_srcPeers_unregisterPeer] at hb
    rw [mem_peerKeys_unregisterPeer]
    exact ⟨h1 b hb.1, hb.2⟩
  · intro b hb
    rw [mem_peerKeys_unregisterPeer] at hb
    rw [mem_srcPeers_unregisterPeer]
    exact ⟨h2 b hb.1, hb.2⟩
  · intro b hb
    rw [mem_connecting_unregisterPeer] at hb
    rw [mem_peerKeys_unregisterPeer]
    exact ⟨h3 b hb.1, hb.2⟩

theorem wcoh_removeConnecting {s : RState} {a : Addr} (h : WeakCoherent s) :
    WeakCoherent { s with connecting := removeS a s.connecting } := by
  obtain ⟨h1, h2⟩ := h
  exact ⟨h1, fun b hb => h2 b ((mem_removeS b a s.connecting).mp hb).1⟩

theorem coh_removeConnecting {s : RState} {a : Addr} (h : Coherent s) :
    Coherent { s with connecting := removeS a s.connecting } := by
  obtain ⟨h1, h2, h3⟩ := h
  exact ⟨h1, h2, fun b hb => h3 b ((mem_removeS b a s.connecting).mp hb).1⟩

theorem wcoh_aupdateSources {s : RState} {k : Src} {f : Interest → Interest}
    (h : WeakCoherent s) :
    WeakCoherent { s with sources := aupdate k f s.sources } := by
  obtain ⟨h1, h2⟩ := h
  refine ⟨?_, h2⟩
  intro b hb
  exact h1 b ((mem_srcPeersL_aupdate b k f s.sources).mp hb)

theorem coh_aupdateSources {s : RState} {k : Src} {f : Interest → Interest}
    (h : Coherent s) :
    Coherent { s with sources := aupdate k f s.sources } := by
  obtain ⟨h1, h2, h3⟩ := h
  refine ⟨?_, ?_, h3⟩
  · intro b hb
    exact h1 b ((mem_srcPeersL_aupdate b k f s.sources).mp hb)
  · intro b hb
    exact (mem_srcPeersL_aupdate b k f s.sources).mpr (h2 b hb)

theorem wcoh_aremoveSources {s : RState} {k : Src} (h : WeakCoherent s) :
    WeakCoherent { s with sources := aremove k s.sources } := by
  obtain ⟨h1, h2⟩ := h
  refine ⟨?_, h2⟩
  intro b hb
  have hb2 : Src.peer b ∈ akeys (aremove k s.sources) := (mem_srcPeersL_iff b _).mp hb
  exact h1 b ((mem_srcPeersL_iff b _).mpr ((mem_akeys_aremove _ k _).mp hb2).1)

theorem wcoh_insertConnecting {s : RState} {a : Addr} (h : WeakCoherent s)
    (ha : a ∈ peerKeys s) :
    WeakCoherent { s with connecting := insertS a s.connecting } := by
  obtain ⟨h1, h2⟩ := h
  refine ⟨h1, ?_⟩
  intro b hb
  rcases (mem_insertS b a s.connecting).mp hb with rfl | hb2
  exacts [ha, h2 b hb2]

theorem coh_insertConnecting {s : RState} {a : Addr} (h : Coherent s)
    (ha : a ∈ peerKeys s) :
    Coherent { s with connecting := insertS a s.connecting } := by
  obtain ⟨h1, h2, h3⟩ := h
  refine ⟨h1, h2, ?_⟩
  intro b hb
  rcases (mem_insertS b a s.connecting).mp hb with rfl | hb2
  exacts [ha, h3 b hb2]

theorem wcoh_handleReadable {s : RState} {a : Addr} {res : ReadResult}
    (h : WeakCoherent s) : WeakCoherent (handleReadable s a res).1 := by
  unfold handleReadable
  split
  · exact h
  · split
    · split
      · exact h
      · exact wcoh_unregisterPeer (wcoh_shut h)
    · exact h
    · exact wcoh_unregisterPeer (wcoh_shut h)

theorem coh_handleReadable {s : RState} {a : Addr} {res : ReadResult}
    (h : Coherent s) : Coherent (handleReadable s a res).1 := by
  unfold handleReadable
  split
  · exact h
  · split
    · split
      · exact h
      · exact coh_unregisterPeer (coh_shut h)
    · exact h
    · exact coh_unregisterPeer (coh_shut h)

theorem wcoh_handleWritable (s : RState) (a : Addr) (lo : Bool) (res : WriteResult)
    (h : WeakCoherent s) : WeakCoherent (handleWritable s a lo res).1 := by
  unfold handleWritable
  cases hsrc : alookup (Src.peer a) s.sources with
  | none => exact h
  | some i =>
    cases hpeer : alookup a s.peers with
    | none => exact h
    | some link =>
      dsimp only
      by_cases hif : (decide (a ∈ s.connecting) && !lo) = true
      · rw [if_pos hif]
        exact wcoh_removeConnecting h
      · rw [if_neg hif]
        cases res with
        | ok => exact wcoh_aupdateSources (wcoh_removeConnecting h)
        | wouldBlock => exact wcoh_aupdateSources (wcoh_removeConnecting h)
        | writeZero => exact wcoh_aupdateSources (wcoh_removeConnecting h)
        | otherErr =>
          exact wcoh_unregisterPeer (r := Reason.connectionError)
            (wcoh_shut (wcoh_removeConnecting h))

theorem coh_handleWritable (s : RState) (a : Addr) (lo : Bool) (res : WriteResult)
    (h : Coherent s) : Coherent (handleWritable s a lo res).1 := by
  unfold handleWritable
  cases hsrc : alookup (Src.peer a) s.sources with
  | none => exact h
  | some i =>
    cases hpeer : alookup a s.peers with
    | none => exact h
    | some link =>
      dsimp only
      by_cases hif : (decide (a ∈ s.connecting) && !lo) = true
      · rw [if_pos hif]
        exact coh_removeConnecting h
      · rw [if_neg hif]
        cases res with
        | ok => exact coh_aupdateSources (coh_removeConnecting h)
        | wouldBlock => exact coh_aupdateSources (coh_removeConnecting h)
        | writeZero => exact coh_aupdateSources (coh_removeConnecting h)
        | otherErr =>
          exact coh_unregisterPeer (r := Reason.connectionError)
            (coh_shut (coh_removeConnecting h))

theorem wcoh_handleAccept (s : RState) (ac : Accept) (h : WeakCoherent s) :
    WeakCoherent (handleAccept s ac).1 := by
  unfold handleAccept
  split
  · exact h
  · split
    · exact h
    · exact wcoh_registerPeer h

theorem coh_handleAccept (s : RState) (ac : Accept) (h : Coherent s) :
    Coherent (handleAccept s ac).1 := by
  unfold handleAccept
  split
  · exact h
  · split
    · exact h
    · exact coh_registerPeer h

theorem wcoh_handleListener (accepts : List Accept) :
    ∀ s : RState, WeakCoherent s → WeakCoherent (handleListener s accepts).1 := by
  induction accepts with
  | nil => exact fun s h => h
  | cons ac rest ih =>
    intro s h
    unfold handleListener
    rcases hr : handleAccept s ac with ⟨s1, evs, out⟩
    have h1 : WeakCoherent s1 := by
      have h2 := wcoh_handleAccept s ac h
      rw [hr] at h2
      exact h2
    cases out with
    | running => exact ih s1 h1
    | stopped => exact h1
    | fatal => exact h1
    | panicked => exact h1

theorem coh_handleListener (accepts : List Accept) :
    ∀ s : RState, Coherent s → Coherent (handleListener s accepts).1 := by
  induction accepts with
  | nil => exact fun s h => h
  | cons ac rest ih =>
    intro s h
    unfold handleListener
    rcases hr : handleAccept s ac with ⟨s1, evs, out⟩
    have h1 : Coherent s1 := by
      have h2 := coh_handleAccept s ac h
      rw [hr] at h2
      exact h2
    cases out with
    | running => exact ih s1 h1
    | stopped => exact h1
    | fatal => exact h1
    | panicked => exact h1

theorem wcoh_handlePeerEvent {s : RState} {a : Addr} {r : PeerReadiness}
    (h : WeakCoherent s) : WeakCoherent (handlePeerEvent s a r).1 := by
  unfold handlePeerEvent
  split
  · exact wcoh_aremoveSources h
  · rcases hw : (if r.writable then handleWritable s a r.localAddrOk r.writeRes
        else (s, [], Outcome.running)) with ⟨s1, evs1, out⟩
    have h1 : WeakCoherent s1 := by
      by_cases hb : r.writable = true
      · rw [if_pos hb] at hw
        have h2 := wcoh_handleWritable s a r.localAddrOk r.writeRes h
        rw [hw] at h2
        exact h2
      · rw [if_neg hb] at hw
        cases hw
        exact h
    cases out with
    | running =>
      by_cases hr : r.readable = true
      · dsimp only
        rw [if_pos hr]
        exact wcoh_handleReadable h1
      · dsimp only
        rw [if_neg hr]
        exact h1
    | stopped => exact h1
    | fatal => exact h1
    | panicked => exact h1

theorem coh_handlePeerEvent {s : RState} {a : Addr} {r : PeerReadiness}
    (h : Coherent s) (hinv : r.invalid = false) : Coherent (handlePeerEvent s a r).1 := by
  unfold handlePeerEvent
  rw [hinv]
  simp only [Bool.false_eq_true, if_false]
  rcases hw : (if r.writable then handleWritable s a r.localAddrOk r.writeRes
      else (s, [], Outcome.running)) with ⟨s1, evs1, out⟩
  have h1 : Coherent s1 := by
    by_cases hb : r.writable = true
    · rw [if_pos hb] at hw
      have h2 := coh_handleWritable s a r.localAddrOk r.writeRes h
      rw [hw] at h2
      exact h2
    · rw [if_neg hb] at hw
      cases hw
      exact h
  cases out with
  | running =>
    by_cases hr : r.readable = true
    · dsimp only
      rw [if_pos hr]
      exact coh_handleReadable h1
    · dsimp only
      rw [if_neg hr]
      exact h1
  | stopped => exact h1
  | fatal => exact h1
  | panicked => exact h1

theorem wcoh_handleEvent {s : RState} {e : EvInput} (h : WeakCoherent s) :
    WeakCoherent (handleEvent s e).1 := by
  cases e with
  | peer a r => exact wcoh_handlePeerEvent h
  | listener accepts => exact wcoh_handleListener accepts s h
  | waker sp cmds =>
    cases sp
    · exact h
    · exact h

theorem coh_handleEvent {s : RState} {e : EvInput} (h : Coherent s)
    (hninv : evNoInvalid e = true) : Coherent (handleEvent s e).1 := by
  cases e with
  | peer a r =>
    have hr : r.invalid = false := by
      simpa [evNoInvalid] using hninv
    exact coh_handlePeerEvent h hr
  | listener accepts => exact coh_handleListener accepts s h
  | waker sp cmds =>
    cases sp
    · exact h
    · exact h

theorem wcoh_dispatchEvents (evs : List EvInput) :
    ∀ s : RState, WeakCoherent s → WeakCoherent (dispatchEvents s evs).1 := by
  induction evs with
  | nil => exact fun s h => h
  | cons e rest ih =>
    intro s h
    unfold dispatchEvents
    rcases hr : handleEvent s e with ⟨s1, evs1, out⟩
    have h1 : WeakCoherent s1 := by
      have h2 := wcoh_handleEvent (s := s) (e := e) h
      rw [hr] at h2
      exact h2
    cases out with
    | running => exact ih s1 h1
    | stopped => exact h1
    | fatal => exact h1
    | panicked => exact h1

theorem coh_dispatchEvents (evs : List EvInput) :
    ∀ s : RState, Coherent s → evs.all evNoInvalid = true →
      Coherent (dispatchEvents s evs).1 := by
  induction evs with
  | nil => exact fun s h _ => h
  | cons e rest ih =>
    intro s h hall
    rw [List.all_cons, Bool.and_eq_true] at hall
    obtain ⟨he, hrest⟩ := hall
    unfold dispatchEvents
    rcases hr : handleEvent s e with ⟨s1, evs1, out⟩
    have h1 : Coherent s1 := by
      have h2 := coh_handleEvent (s := s) (e := e) h he
      rw [hr] at h2
      exact h2
    cases out with
    | running => exact ih s1 h1 hrest
    | stopped => exact h1
    | fatal => exact h1
    | panicked => exact h1

theorem wcoh_processOne {s : RState} {now : Time} {i : Intent} (h : WeakCoherent s) :
    WeakCoherent (processOne s now i).1 := by
  cases i with
  | write a => exact wcoh_aupdateSources h
  | connect a res =>
    cases res with
    | ok =>
      exact wcoh_insertConnecting (wcoh_registerPeer h)
        (mem_peerKeys_registerPeer.mpr (Or.inl rfl))
    | alreadyExists => exact h
    | err => exact h
  | disconnect a r =>
    simp only [processOne]
    cases hp : alookup a s.peers with
    | some link => exact wcoh_unregisterPeer (r := r) (wcoh_shut h)
    | none => exact h
  | wakeup d => exact wcoh_timeouts h
  | event e => exact h

theorem coh_processOne {s : RState} {now : Time} {i : Intent} (h : Coherent s) :
    Coherent (processOne s now i).1 := by
  cases i with
  | write a => exact coh_aupdateSources h
  | connect a res =>
    cases res with
    | ok =>
      exact coh_insertConnecting (coh_registerPeer h)
        (mem_peerKeys_registerPeer.mpr (Or.inl rfl))
    | alreadyExists => exact h
    | err => exact h
  | disconnect a r =>
    simp only [processOne]
    cases hp : alookup a s.peers with
    | some link => exact coh_unregisterPeer (r := r) (coh_shut h)
    | none => exact h
  | wakeup d => exact coh_timeouts h
  | event e => exact h

theorem wcoh_process (intents : List Intent) (now : Time) :
    ∀ s : RState, WeakCoherent s → WeakCoherent (process s now intents).1 := by
  induction intents with
  | nil => exact fun s h => h
  | cons i rest ih =>
    intro s h
    exact ih (processOne s now i).1 (wcoh_processOne h)

theorem coh_process (intents : List Intent) (now : Time) :
    ∀ s : RState, Coherent s → Coherent (process s now intents).1 := by
  induction intents with
  | nil => exact fun s h => h
  | cons i rest ih =>
    intro s h
    exact ih (processOne s now i).1 (coh_processOne h)

theorem wcoh_iterate (s : RState) (env : IterEnv) (h : WeakCoherent s) :
    WeakCoherent (iterate s env).1 := by
  unfold iterate
  cases henv : env.wait with
  | ready evs =>
    dsimp only
    rcases hd : dispatchEvents s evs with ⟨s1, evs1, out⟩
    have h1 : WeakCoherent s1 := by
      have h2 := wcoh_dispatchEvents evs s h
      rw [hd] at h2
      exact h2
    cases out with
    | running => exact wcoh_process env.intents env.now s1 h1
    | stopped => exact h1
    | fatal => exact h1
    | panicked => exact h1
  | timedOut =>
    exact wcoh_process env.intents env.now _ (wcoh_timeouts h)
  | waitErr => exact h

theorem coh_iterate {s : RState} {env : IterEnv} (h : Coherent s)
    (hninv : envNoInvalid env = true) : Coherent (iterate s env).1 := by
  unfold iterate
  cases henv : env.wait with
  | ready evs =>
    have hall : evs.all evNoInvalid = true := by
      unfold envNoInvalid at hninv
      rw [henv] at hninv
      exact hninv
    dsimp only
    rcases hd : dispatchEvents s evs with ⟨s1, evs1, out⟩
    have h1 : Coherent s1 := by
      have h2 := coh_dispatchEvents evs s h hall
      rw [hd] at h2
      exact h2
    cases out with
    | running => exact coh_process env.intents env.now s1 h1
    | stopped => exact h1
    | fatal => exact h1
    | panicked => exact h1
  | timedOut =>
    exact coh_process env.intents env.now _ (coh_timeouts h)
  | waitErr => exact h

theorem wcoh_runLoop (envs : List IterEnv) :
    ∀ s : RState, WeakCoherent s → WeakCoherent (runLoop s envs).1 := by
  induction envs with
  | nil => exact fun s h => h
  | cons env rest ih =>
    intro s h
    unfold runLoop
    rcases hi : iterate s env with ⟨s1, t1, out⟩
    have h1 : WeakCoherent s1 := by
      have h2 := wcoh_iterate s env h
      rw [hi] at h2
      exact h2
    cases out with
    | running => exact ih s1 h1
    | stopped => exact h1
    | fatal => exact h1
    | panicked => exact h1

/-! ### Claim C1: registration coherence -/

/-- C1 counterexample: the claim asserts that the invalid-source branch
preserves `keys(PeerTable) = { a : Peer(a) ∈ SourceSet }`, but that branch
unregisters the source while deliberately leaving the peer-table entry, so
handling an `invalid` readiness event for a registered peer breaks the
equality: from the coherent state with peer 5 registered, the invalid
branch leaves peer 5 in the PeerTable with no source. -/
theorem c1_counterexample :
    Coherent (registerPeer initState 5 Link.outbound) ∧
      ¬ Coherent (handlePeerEvent (registerPeer initState 5 Link.outbound) 5
        ⟨false, false, false, false, true, true, WriteResult.ok, ReadResult.wouldBlock⟩).1 := by
  decide

/-- C1 (amended): at every quiescent point the registered peer sources are
contained in the PeerTable keys and the ConnectingSet is contained in the
PeerTable keys, and every iteration of the event loop (readiness handling
followed by intent processing) preserves this; the full equality
`keys(PeerTable) = { a : Peer(a) ∈ SourceSet }` is additionally preserved
by every iteration in which no peer source reports `invalid` — the
invalid-source branch only preserves the inclusions, since it removes the
source registration but leaves the PeerTable entry. -/
theorem c1_registration_coherence (s : RState) (env : IterEnv)
    (h : WeakCoherent s) :
    WeakCoherent (iterate s env).1 ∧
      (Coherent s → envNoInvalid env = true → Coherent (iterate s env).1) :=
  ⟨wcoh_iterate s env h, fun hc hninv => coh_iterate hc hninv⟩

/-- C1 witness: the amended coherence theorem applied to the initial state
and one concrete loop iteration. -/
theorem c1_registration_coherence_witness :
    WeakCoherent (iterate initState ⟨WaitResult.timedOut, 0,
        [Intent.connect 7 DialResult.ok]⟩).1 ∧
      (Coherent initState →
        envNoInvalid ⟨WaitResult.timedOut, 0, [Intent.connect 7 DialResult.ok]⟩ = true →
        Coherent (iterate initState ⟨WaitResult.timedOut, 0,
          [Intent.connect 7 DialResult.ok]⟩).1) :=
  c1_registration_coherence initState ⟨WaitResult.timedOut, 0,
    [Intent.connect 7 DialResult.ok]⟩ (by decide)

/-! ### Claim C6: the readable handler -/

/-- C6: whenever a readable readiness event for peer `a` is handled: if `a`
is no longer in the PeerTable nothing happens; otherwise one non-blocking
read into the fixed `READ_BUFFER_SIZE` (192 KiB) buffer is performed, and a
read of `count > 0` bytes yields exactly one `received_bytes` callback with
a non-empty slice, a 0-byte read shuts the socket down and unregisters `a`
with `PeerDisconnected`, `WouldBlock` does nothing, and any other error
shuts the socket down and unregisters `a` with `ConnectionError`. -/
theorem c6_readable_handler (s : RState) (a : Addr) :
    (alookup a s.peers = none → ∀ res, handleReadable s a res = (s, [])) ∧
    ((alookup a s.peers).isSome →
      (∀ n, 0 < n → n ≤ READ_BUFFER_SIZE →
        handleReadable s a (ReadResult.ok n) = (s, [PEvent.receivedBytesEv a n])) ∧
      ((handleReadable s a (ReadResult.ok 0)).2
          = [PEvent.disconnectedEv a Reason.peerDisconnected] ∧
        (handleReadable s a (ReadResult.ok 0)).1.shut = s.shut ++ [a] ∧
        a ∉ peerKeys (handleReadable s a (ReadResult.ok 0)).1 ∧
        Src.peer a ∉ akeys (handleReadable s a (ReadResult.ok 0)).1.sources) ∧
      handleReadable s a ReadResult.wouldBlock = (s, []) ∧
      ((handleReadable s a ReadResult.err).2
          = [PEvent.disconnectedEv a Reason.connectionError] ∧
        (handleReadable s a ReadResult.err).1.shut = s.shut ++ [a] ∧
        a ∉ peerKeys (handleReadable s a ReadResult.err).1 ∧
        Src.peer a ∉ akeys (handleReadable s a ReadResult.err).1.sources)) := by
  constructor
  · intro hnone res
    simp [handleReadable, hnone]
  · intro hsome
    obtain ⟨l, hl⟩ := Option.isSome_iff_exists.mp hsome
    refine ⟨?_, ⟨?_, ?_, ?_, ?_⟩, ?_, ?_, ?_, ?_, ?_⟩
    · intro n hn _
      simp [handleReadable, hl, hn]
    · simp [handleReadable, hl, unregisterPeer]
    · simp [handleReadable, hl, unregisterPeer]
    · simp only [handleReadable, hl]
      norm_num
      rw [mem_peerKeys_unregisterPeer]
      simp
    · simp only [handleReadable, hl]
      norm_num
      simp [unregisterPeer, mem_akeys_aremove]
    · simp [handleReadable, hl]
    · simp [handleReadable, hl, unregisterPeer]
    · simp [handleReadable, hl, unregisterPeer]
    · simp only [handleReadable, hl]
      rw [mem_peerKeys_unregisterPeer]
      simp
    · simp only [handleReadable, hl]
      simp [unregisterPeer, mem_akeys_aremove]

/-- C6 witness: the readable handler on a registered peer with a 3-byte
read delivers exactly one `received_bytes` callback. -/
theorem c6_readable_handler_witness :
    handleReadable (registerPeer initState 5 Link.inbound) 5 (ReadResult.ok 3) =
      (registerPeer initState 5 Link.inbound, [PEvent.receivedBytesEv 5 3]) :=
  ((c6_readable_handler (registerPeer initState 5 Link.inbound) 5).2
    (by decide)).1 3 (by decide) (by decide)

/-! ### Claim C7: the connect intent -/

/-- C7: for every `Connect(a)` intent drained from the protocol: on a
successful dial the stream is registered in the PeerTable and SourceSet
with `Link::Outbound`, `a` joins the ConnectingSet and `attempted(&a)` is
the only callback; on `AlreadyExists` nothing happens; on any other dial
error `disconnected(&a, ConnectionError)` is the only protocol call and the
state (in particular the PeerTable) is unchanged. -/
theorem c7_connect_intent (s : RState) (now : Time) (a : Addr) :
    (alookup a (processOne s now (Intent.connect a DialResult.ok)).1.peers
        = some Link.outbound ∧
      Src.peer a ∈ akeys (processOne s now (Intent.connect a DialResult.ok)).1.sources ∧
      a ∈ (processOne s now (Intent.connect a DialResult.ok)).1.connecting ∧
      (processOne s now (Intent.connect a DialResult.ok)).2 = [PEvent.attemptedEv a]) ∧
    processOne s now (Intent.connect a DialResult.alreadyExists) = (s, []) ∧
    processOne s now (Intent.connect a DialResult.err)
      = (s, [PEvent.disconnectedEv a Reason.connectionError]) := by
  refine ⟨⟨?_, ?_, ?_, rfl⟩, rfl, rfl⟩
  · show alookup a (ainsert a Link.outbound s.peers) = some Link.outbound
    exact alookup_ainsert_self a Link.outbound s.peers
  · show Src.peer a ∈ akeys (ainsert (Src.peer a) interestAll s.sources)
    exact (mem_akeys_ainsert _ _ _ _).mpr (Or.inl rfl)
  · show a ∈ insertS a (registerPeer s a Link.outbound).connecting
    exact (mem_insertS _ _ _).mpr (Or.inl rfl)

/-! ### Claim C8: the disconnect intent -/

/-- C8: for every `Disconnect(a, reason)` intent drained from the protocol:
if `a` is in the PeerTable, the socket is shut down and `a` is unregistered
from the PeerTable, SourceSet and ConnectingSet, with exactly one
synchronous `disconnected(&a, reason)` callback; if `a` is unknown the
intent is a no-op; and processing the same intent twice calls
`disconnected` only for the first. -/
theorem c8_disconnect_idempotent (s : RState) (now : Time) (a : Addr) (r : Reason) :
    ((alookup a s.peers).isSome →
      (processOne s now (Intent.disconnect a r)).2 = [PEvent.disconnectedEv a r] ∧
      (processOne s now (Intent.disconnect a r)).1.shut = s.shut ++ [a] ∧
      a ∉ peerKeys (processOne s now (Intent.disconnect a r)).1 ∧
      Src.peer a ∉ akeys (processOne s now (Intent.disconnect a r)).1.sources ∧
      a ∉ (processOne s now (Intent.disconnect a r)).1.connecting) ∧
    (alookup a s.peers = none → processOne s now (Intent.disconnect a r) = (s, [])) ∧
    (process s now [Intent.disconnect a r, Intent.disconnect a r]).2
      = (processOne s now (Intent.disconnect a r)).2 := by
  refine ⟨?_, ?_, ?_⟩
  · intro hsome
    obtain ⟨l, hl⟩ := Option.isSome_iff_exists.mp hsome
    refine ⟨?_, ?_, ?_, ?_, ?_⟩
    · simp [processOne, hl, unregisterPeer]
    · simp [processOne, hl, unregisterPeer]
    · simp only [processOne, hl]
      rw [mem_peerKeys_unregisterPeer]
      simp
    · simp only [processOne, hl]
      simp [unregisterPeer, mem_akeys_aremove]
    · simp only [processOne, hl]
      rw [mem_connecting_unregisterPeer]
      simp
  · intro hnone
    simp [processOne, hnone]
  · cases hl : alookup a s.peers with
    | some l =>
      have h2 : alookup a (aremove a s.peers) = none := alookup_aremove_self a _
      simp [process, processOne, hl, h2, unregisterPeer]
    | none =>
      simp [process, processOne, hl]

/-- C8 witness: disconnecting a registered peer emits exactly one
`disconnected` callback and removes the peer everywhere. -/
theorem c8_disconnect_idempotent_witness :
    (processOne (registerPeer initState 4 Link.inbound) 0
        (Intent.disconnect 4 Reason.protocolReason)).2
      = [PEvent.disconnectedEv 4 Reason.protocolReason] :=
  ((c8_disconnect_idempotent (registerPeer initState 4 Link.inbound) 0 4
    Reason.protocolReason).1 (by decide)).1

/-! ### Claim C9: timer wake coalescing -/

theorem countEv_nil (e : PEvent) : countEv e [] = 0 := rfl

theorem countEv_cons (e x : PEvent) (t : List PEvent) :
    countEv e (x :: t) = (if x = e then 1 else 0) + countEv e t := by
  by_cases h : x = e
  · simp [countEv, List.filter_cons, h, Nat.add_comm]
  · simp [countEv, List.filter_cons, h]

theorem countEv_append (e : PEvent) (t1 t2 : List PEvent) :
    countEv e (t1 ++ t2) = countEv e t1 + countEv e t2 := by
  simp [countEv, List.filter_append]

theorem countWake_processOne (s : RState) (now : Time) (i : Intent) :
    countEv PEvent.wakeEv (processOne s now i).2 = 0 := by
  cases i with
  | write a => rfl
  | connect a res => cases res <;> simp [processOne, countEv, List.filter]
  | disconnect a r =>
    cases h : alookup a s.peers with
    | some l => simp [processOne, h, unregisterPeer, countEv, List.filter]
    | none => simp [processOne, h, countEv]
  | wakeup d => rfl
  | event e => rfl

theorem countWake_process (intents : List Intent) (now : Time) :
    ∀ s : RState, countEv PEvent.wakeEv (process s now intents).2 = 0 := by
  induction intents with
  | nil => intro s; rfl
  | cons i rest ih =>
    intro s
    simp only [process]
    rw [countEv_append, countWake_processOne, ih]

/-- C9: in every loop iteration where `wait_timeout` returns `TimedOut`,
all expired entries (deadline ≤ now) are drained from the TimeoutManager,
and `protocol.wake()` is called exactly once if at least one entry expired
and not at all otherwise; no per-key information reaches the protocol (the
`wake` callback carries none) and the loop continues normally. -/
theorem c9_timer_wake (s : RState) (now : Time) (intents : List Intent) :
    countEv PEvent.wakeEv (iterate s ⟨WaitResult.timedOut, now, intents⟩).2.1
        = (if (tmWake s.timeouts now).2.isEmpty then 0 else 1) ∧
    (∀ d ∈ (tmWake s.timeouts now).1, now < d) ∧
    (∀ d ∈ s.timeouts, d ≤ now → d ∈ (tmWake s.timeouts now).2) ∧
    (iterate s ⟨WaitResult.timedOut, now, intents⟩).2.2 = Outcome.running := by
  refine ⟨?_, ?_, ?_, rfl⟩
  · show countEv PEvent.wakeEv
      (PEvent.tickEv :: ((if (tmWake s.timeouts now).2.isEmpty then [] else [PEvent.wakeEv]) ++
        (process { s with timeouts := (tmWake s.timeouts now).1 } now intents).2)) = _
    rw [countEv_cons, countEv_append, countWake_process]
    by_cases h : (tmWake s.timeouts now).2.isEmpty
    · rw [if_pos h, if_pos h]
      simp [countEv]
    · rw [if_neg h, if_neg h]
      simp [countEv, List.filter]
  · intro d hd
    have := List.of_mem_filter hd
    simpa using this
  · intro d hd hle
    exact List.mem_filter.mpr ⟨hd, by simpa using hle⟩

/-! ### Claim C5: the writable handler -/

theorem handleWritable_wb_lookup {s : RState} {a : Addr} {i : Interest} {l : Link}
    (hsrc : alookup (Src.peer a) s.sources = some i)
    (hpeer : alookup a s.peers = some l) :
    alookup (Src.peer a) (handleWritable s a true WriteResult.wouldBlock).1.sources
        = some ⟨i.read, true⟩ ∧
      alookup a (handleWritable s a true WriteResult.wouldBlock).1.peers = some l := by
  unfold handleWritable
  rw [hsrc, hpeer]
  dsimp only
  rw [if_neg (by simp)]
  constructor
  · rw [alookup_aupdate_self, hsrc]
    rfl
  · exact hpeer

theorem repeatWB_lookup (a : Addr) (l : Link) :
    ∀ (k : Nat) (s : RState) (i : Interest),
      alookup (Src.peer a) s.sources = some i → alookup a s.peers = some l →
      ∃ j : Interest, alookup (Src.peer a) (repeatWritableWB s a k).sources = some j ∧
        alookup a (repeatWritableWB s a k).peers = some l ∧ (0 < k → j.write = true) := by
  intro k
  induction k with
  | zero =>
    intro s i hs hp
    exact ⟨i, hs, hp, fun h => absurd h (by simp)⟩
  | succ m ih =>
    intro s i hs hp
    obtain ⟨hs2, hp2⟩ := handleWritable_wb_lookup hs hp
    obtain ⟨j, h1, h2, h3⟩ :=
      ih (handleWritable s a true WriteResult.wouldBlock).1 ⟨i.read, true⟩ hs2 hp2
    refine ⟨j, h1, h2, fun _ => ?_⟩
    cases m with
    | zero =>
      have h4 := hs2.symm.trans h1
      rw [Option.some.injEq] at h4
      rw [← h4]
    | succ p => exact h3 (Nat.succ_pos p)

/-- C5 counterexample: the claim says that whenever a writable event for
`a` is handled with `a` in the ConnectingSet, `connected` is called and
then `protocol.write` is invoked; but when `socket.local_address()` fails
the handler returns the error (`run` propagates it), makes no callback at
all, and `protocol.write` never runs — here concretely for peer 5 right
after its `Connect` intent. -/
theorem c5_counterexample :
    5 ∈ (processOne initState 0 (Intent.connect 5 DialResult.ok)).1.connecting ∧
      (handleWritable (processOne initState 0 (Intent.connect 5 DialResult.ok)).1 5 false
          WriteResult.ok).2.1 = [] ∧
      (handleWritable (processOne initState 0 (Intent.connect 5 DialResult.ok)).1 5 false
          WriteResult.ok).2.2 = Outcome.fatal := by
  decide

/-- C5 (amended): whenever a writable readiness event for a registered peer
`a` is handled and the `local_address` query succeeds, `a` is removed from
the ConnectingSet and, if it was there, `protocol.connected(a, local_addr,
link)` is called exactly once; then `protocol.write` runs: `Ok` clears the
WRITE interest, `WouldBlock`/`WriteZero` set it (k consecutive `WouldBlock`
results leave it set, one success clears it), and any other error shuts the
socket down and unregisters `a` with `ConnectionError`.  (If `a` was
connecting and the `local_address` query fails, the handler instead makes
no callback and `run` returns the error.) -/
theorem c5_writable_handler (s : RState) (a : Addr) (i : Interest) (l : Link)
    (hsrc : alookup (Src.peer a) s.sources = some i)
    (hpeer : alookup a s.peers = some l) :
    (∀ res, a ∈ s.connecting →
      (handleWritable s a true res).2.1 =
        PEvent.connectedEv a l ::
          (if res = WriteResult.otherErr
            then [PEvent.disconnectedEv a Reason.connectionError] else [])) ∧
    (∀ res, a ∉ s.connecting →
      (handleWritable s a true res).2.1 =
        (if res = WriteResult.otherErr
          then [PEvent.disconnectedEv a Reason.connectionError] else [])) ∧
    (∀ res, a ∉ (handleWritable s a true res).1.connecting) ∧
    (∀ res, (handleWritable s a true res).2.2 = Outcome.running) ∧
    writeBit (handleWritable s a true WriteResult.ok).1 a = some false ∧
    writeBit (handleWritable s a true WriteResult.wouldBlock).1 a = some true ∧
    writeBit (handleWritable s a true WriteResult.writeZero).1 a = some true ∧
    (a ∉ peerKeys (handleWritable s a true WriteResult.otherErr).1 ∧
      Src.peer a ∉ akeys (handleWritable s a true WriteResult.otherErr).1.sources ∧
      (handleWritable s a true WriteResult.otherErr).1.shut = s.shut ++ [a]) ∧
    (∀ k, 0 < k → writeBit (repeatWritableWB s a k) a = some true) ∧
    (∀ k, writeBit (handleWritable (repeatWritableWB s a k) a true WriteResult.ok).1 a
        = some false) := by
  have hok : ∀ (s' : RState) (i' : Interest) (l' : Link),
      alookup (Src.peer a) s'.sources = some i' → alookup a s'.peers = some l' →
      writeBit (handleWritable s' a true WriteResult.ok).1 a = some false := by
    intro s' i' l' hs hp
    unfold handleWritable
    rw [hs, hp]
    dsimp only
    rw [if_neg (by simp)]
    unfold writeBit
    dsimp only
    rw [alookup_aupdate_self, hs]
    rfl
  refine ⟨?_, ?_, ?_, ?_, ?_, ?_, ?_, ⟨?_, ?_, ?_⟩, ?_, ?_⟩
  · intro res hmem
    unfold handleWritable
    rw [hsrc, hpeer]
    dsimp only
    rw [if_neg (by simp)]
    cases res <;> simp [hmem, unregisterPeer]
  · intro res hmem
    unfold handleWritable
    rw [hsrc, hpeer]
    dsimp only
    rw [if_neg (by simp)]
    cases res <;> simp [hmem, unregisterPeer]
  · intro res
    unfold handleWritable
    rw [hsrc, hpeer]
    dsimp only
    rw [if_neg (by simp)]
    cases res
    · simp [mem_removeS]
    · simp [mem_removeS]
    · simp [mem_removeS]
    · simp [unregisterPeer, mem_removeS]
  · intro res
    unfold handleWritable
    rw [hsrc, hpeer]
    dsimp only
    rw [if_neg (by simp)]
    cases res <;> rfl
  · exact hok s i l hsrc hpeer
  · unfold writeBit
    rw [(handleWritable_wb_lookup hsrc hpeer).1]
    rfl
  · unfold handleWritable
    rw [hsrc, hpeer]
    dsimp only
    rw [if_neg (by simp)]
    unfold writeBit
    dsimp only
    rw [alookup_aupdate_self, hsrc]
    rfl
  · unfold handleWritable
    rw [hsrc, hpeer]
    dsimp only
    rw [if_neg (by simp)]
    rw [mem_peerKeys_unregisterPeer]
    simp
  · unfold handleWritable
    rw [hsrc, hpeer]
    dsimp only
    rw [if_neg (by simp)]
    simp [unregisterPeer, mem_akeys_aremove]
  · unfold handleWritable
    rw [hsrc, hpeer]
    dsimp only
    rw [if_neg (by simp)]
    rfl
  · intro k hk
    obtain ⟨j, h1, h2, h3⟩ := repeatWB_lookup a l k s i hsrc hpeer
    unfold writeBit
    rw [h1]
    simp [h3 hk]
  · intro k
    obtain ⟨j, h1, h2, h3⟩ := repeatWB_lookup a l k s i hsrc hpeer
    exact hok (repeatWritableWB s a k) j l h1 h2

/-- C5 witness: a registered connecting peer whose writable event completes
the connect with a successful write: `connected` fires once and the WRITE
interest ends cleared. -/
theorem c5_writable_handler_witness :
    (handleWritable (processOne initState 0 (Intent.connect 6 DialResult.ok)).1 6 true
        WriteResult.ok).2.1 = [PEvent.connectedEv 6 Link.outbound] :=
  (c5_writable_handler (processOne initState 0 (Intent.connect 6 DialResult.ok)).1 6
      interestAll Link.outbound (by decide) (by decide)).1 WriteResult.ok (by decide)

/-! ### Claim C4: the WRITE-interest invariant -/

theorem aupdate_of_alookup_none {κ β : Type} [DecidableEq κ] {k : κ} (f : β → β) :
    ∀ l : List (κ × β), alookup k l = none → aupdate k f l = l
  | [], _ => rfl
  | p :: rest, h => by
    by_cases hp : p.1 = k
    · rw [show alookup k (p :: rest) = if p.1 = k then some p.2 else alookup k rest from rfl,
        if_pos hp] at h
      cases h
    · rw [show alookup k (p :: rest) = if p.1 = k then some p.2 else alookup k rest from rfl,
        if_neg hp] at h
      unfold aupdate
      rw [if_neg hp, aupdate_of_alookup_none f rest h]

/-- C4 counterexample: the claim says the WRITE interest bit of a
registered peer is set iff the protocol has signalled undrained queued
bytes (a `Write(a)` intent or a `WouldBlock`/`WriteZero` write result);
but `register_peer` registers every peer with `popol::interest::ALL`, so
right after a `Connect` intent is enacted — whose only callback is
`attempted`, with no `Write` intent and no `protocol.write` call — the
WRITE bit is already set. -/
theorem c4_counterexample :
    writeBit (processOne initState 0 (Intent.connect 9 DialResult.ok)).1 9 = some true ∧
      (processOne initState 0 (Intent.connect 9 DialResult.ok)).2
        = [PEvent.attemptedEv 9] := by
  decide

/-- C4 (amended): the WRITE interest bit of `Source::Peer(a)` is modified
exactly at these points — it is set by peer registration (`interest::ALL`,
both accepted and dialed peers, before any protocol signal), set by a
`Write(a)` intent for a registered source (a no-op when unregistered), set
by a `WouldBlock`/`WriteZero` result of `protocol.write`, and cleared by an
`Ok` result; every other step either leaves all WRITE bits unchanged or
removes the source outright (unregistration), and no step changes the bit
of a different address. -/
theorem c4_write_interest :
    (∀ (s : RState) (a : Addr) (link : Link),
      writeBit (registerPeer s a link) a = some true) ∧
    (∀ (s : RState) (now : Time) (a : Addr) (i : Interest),
      alookup (Src.peer a) s.sources = some i →
      writeBit (processOne s now (Intent.write a)).1 a = some true) ∧
    (∀ (s : RState) (now : Time) (a : Addr),
      alookup (Src.peer a) s.sources = none →
      (processOne s now (Intent.write a)).1 = s) ∧
    (∀ (s : RState) (now : Time) (a b : Addr), b ≠ a →
      writeBit (processOne s now (Intent.write a)).1 b = writeBit s b) ∧
    (∀ (s : RState) (a : Addr) (i : Interest) (l : Link),
      alookup (Src.peer a) s.sources = some i → alookup a s.peers = some l →
      writeBit (handleWritable s a true WriteResult.ok).1 a = some false ∧
      writeBit (handleWritable s a true WriteResult.wouldBlock).1 a = some true ∧
      writeBit (handleWritable s a true WriteResult.writeZero).1 a = some true) ∧
    (∀ (s : RState) (a : Addr) (lo : Bool) (res : WriteResult) (b : Addr), b ≠ a →
      writeBit (handleWritable s a lo res).1 b = writeBit s b) ∧
    (∀ (s : RState) (a : Addr) (res : ReadResult) (b : Addr), b ≠ a →
      writeBit (handleReadable s a res).1 b = writeBit s b) ∧
    (∀ (s : RState) (a : Addr) (n : Nat),
      (handleReadable s a (ReadResult.ok (n + 1))).1.sources = s.sources ∧
      (handleReadable s a ReadResult.wouldBlock).1.sources = s.sources) ∧
    (∀ (s : RState) (a : Addr) (r : Reason),
      writeBit (unregisterPeer s a r).1 a = none ∧
      ∀ b, b ≠ a → writeBit (unregisterPeer s a r).1 b = writeBit s b) ∧
    (∀ (s : RState) (now : Time) (a : Addr) (r : Reason) (b : Addr), b ≠ a →
      writeBit (processOne s now (Intent.disconnect a r)).1 b = writeBit s b) ∧
    (∀ (s : RState) (now : Time) (d : Nat),
      (processOne s now (Intent.wakeup d)).1.sources = s.sources) ∧
    (∀ (s : RState) (now : Time) (e : Nat),
      (processOne s now (Intent.event e)).1.sources = s.sources) ∧
    (∀ (s : RState) (now : Time) (a : Addr),
      (processOne s now (Intent.connect a DialResult.alreadyExists)).1.sources = s.sources ∧
      (processOne s now (Intent.connect a DialResult.err)).1.sources = s.sources) ∧
    (∀ (s : RState) (now : Time) (a b : Addr), b ≠ a →
      writeBit (processOne s now (Intent.connect a DialResult.ok)).1 b = writeBit s b) := by
  have hne : ∀ {a b : Addr}, b ≠ a → Src.peer b ≠ Src.peer a := by
    intro a b hb hc
    exact hb (by injection hc)
  have hunreg_self : ∀ (s : RState) (a : Addr) (r : Reason),
      writeBit (unregisterPeer s a r).1 a = none := by
    intro s a r
    unfold writeBit unregisterPeer
    dsimp only
    rw [alookup_aremove_self]
    rfl
  have hunreg_ne : ∀ (s : RState) (a : Addr) (r : Reason) (b : Addr), b ≠ a →
      writeBit (unregisterPeer s a r).1 b = writeBit s b := by
    intro s a r b hb
    unfold writeBit unregisterPeer
    dsimp only
    rw [alookup_aremove_ne _ (hne hb)]
  refine ⟨?_, ?_, ?_, ?_, ?_, ?_, ?_, ?_, ?_, ?_, ?_, ?_, ?_, ?_⟩
  · intro s a link
    unfold writeBit registerPeer
    dsimp only
    rw [alookup_ainsert_self]
    rfl
  · intro s now a i h
    unfold writeBit processOne
    dsimp only
    rw [alookup_aupdate_self, h]
    rfl
  · intro s now a h
    unfold processOne
    dsimp only
    rw [aupdate_of_alookup_none _ _ h]
  · intro s now a b hb
    unfold writeBit processOne
    dsimp only
    rw [alookup_aupdate_ne _ _ (hne hb)]
  · intro s a i l hs hp
    refine ⟨?_, ?_, ?_⟩
    · unfold handleWritable
      rw [hs, hp]
      dsimp only
      rw [if_neg (by simp)]
      unfold writeBit
      dsimp only
      rw [alookup_aupdate_self, hs]
      rfl
    · unfold writeBit
      rw [(handleWritable_wb_lookup hs hp).1]
      rfl
    · unfold handleWritable
      rw [hs, hp]
      dsimp only
      rw [if_neg (by simp)]
      unfold writeBit
      dsimp only
      rw [alookup_aupdate_self, hs]
      rfl
  · intro s a lo res b hb
    unfold handleWritable
    cases hs : alookup (Src.peer a) s.sources with
    | none => rfl
    | some i =>
      cases hp : alookup a s.peers with
      | none => rfl
      | some l =>
        dsimp only
        by_cases hif : (decide (a ∈ s.connecting) && !lo) = true
        · rw [if_pos hif]
          rfl
        · rw [if_neg hif]
          cases res with
          | ok =>
            unfold writeBit
            dsimp only
            rw [alookup_aupdate_ne _ _ (hne hb)]
          | wouldBlock =>
            unfold writeBit
            dsimp only
            rw [alookup_aupdate_ne _ _ (hne hb)]
          | writeZero =>
            unfold writeBit
            dsimp only
            rw [alookup_aupdate_ne _ _ (hne hb)]
          | otherErr =>
            exact hunreg_ne _ a Reason.connectionError b hb
  · intro s a res b hb
    unfold handleReadable
    cases hp : alookup a s.peers with
    | none => rfl
    | some l =>
      cases res with
      | ok n =>
        dsimp only
        by_cases hn : n > 0
        · rw [if_pos hn]
        · rw [if_neg hn]
          exact hunreg_ne _ a Reason.peerDisconnected b hb
      | wouldBlock => rfl
      | err => exact hunreg_ne _ a Reason.connectionError b hb
  · intro s a n
    constructor
    · unfold handleReadable
      cases hp : alookup a s.peers with
      | none => rfl
      | some l =>
        dsimp only
        rw [if_pos (Nat.succ_pos n)]
    · unfold handleReadable
      cases hp : alookup a s.peers with
      | none => rfl
      | some l => rfl
  · intro s a r
    exact ⟨hunreg_self s a r, fun b hb => hunreg_ne s a r b hb⟩
  · intro s now a r b hb
    cases hp : alookup a s.peers with
    | some l =>
      simp only [processOne, hp]
      exact hunreg_ne _ a r b hb
    | none =>
      simp only [processOne, hp]
  · intro s now d
    rfl
  · intro s now e
    rfl
  · intro s now a
    exact ⟨rfl, rfl⟩
  · intro s now a b hb
    unfold writeBit processOne registerPeer
    dsimp only
    rw [alookup_ainsert_ne _ _ (hne hb), alookup_aremove_ne _ (hne hb)]

/-- C4 witness: a `Write(a)` intent for a registered peer sets its WRITE
interest bit. -/
theorem c4_write_interest_witness :
    writeBit (processOne (registerPeer initState 3 Link.inbound) 0 (Intent.write 3)).1 3
      = some true :=
  c4_write_interest.2.1 (registerPeer initState 3 Link.inbound) 0 3 interestAll (by decide)

/-! ### Claim C3: error propagation policy -/

theorem handleWritable_not_fatal (s : RState) (a : Addr) (res : WriteResult) :
    (handleWritable s a true res).2.2 ≠ Outcome.fatal := by
  unfold handleWritable
  cases hs : alookup (Src.peer a) s.sources with
  | none => simp
  | some i =>
    cases hp : alookup a s.peers with
    | none => simp
    | some l =>
      dsimp only
      rw [if_neg (by simp)]
      cases res
      · simp
      · simp
      · simp
      · rcases hu : unregisterPeer _ a Reason.connectionError with ⟨s2, evs⟩
        simp

theorem handlePeerEvent_not_fatal (s : RState) (a : Addr) (r : PeerReadiness)
    (h : (!r.writable || r.localAddrOk) = true) :
    (handlePeerEvent s a r).2.2 ≠ Outcome.fatal := by
  unfold handlePeerEvent
  by_cases hinv : r.invalid = true
  · rw [if_pos hinv]
    simp
  · rw [if_neg hinv]
    by_cases hw : r.writable = true
    · have hlo : r.localAddrOk = true := by
        rw [hw] at h
        simpa using h

      rw [if_pos hw, hlo]
      rcases hres : handleWritable s a true r.writeRes with ⟨s1, evs1, out⟩
      have hout : out ≠ Outcome.fatal := by
        have h2 := handleWritable_not_fatal s a r.writeRes
        rw [hres] at h2
        exact h2
      cases out with
      | running => simp
      | stopped => simp
      | fatal => exact absurd rfl hout
      | panicked => simp
    · rw [if_neg hw]
      simp

theorem handleAccept_running (s : RState) (ac : Accept)
    (h : acceptNoFatal ac = true) :
    (handleAccept s ac).2.2 = Outcome.running := by
  unfold acceptNoFatal at h
  rw [Bool.and_eq_true] at h
  unfold handleAccept
  rw [h.1, h.2]
  rfl

theorem handleListener_not_fatal (accepts : List Accept) :
    ∀ s : RState, accepts.all acceptNoFatal = true →
      (handleListener s accepts).2.2 ≠ Outcome.fatal := by
  induction accepts with
  | nil =>
    intro s _
    simp [handleListener]
  | cons ac rest ih =>
    intro s hall
    rw [List.all_cons, Bool.and_eq_true] at hall
    unfold handleListener
    rcases ha : handleAccept s ac with ⟨s1, evs, out⟩
    have hrun : out = Outcome.running := by
      have h2 := handleAccept_running s ac hall.1
      rw [ha] at h2
      exact h2
    subst hrun
    exact ih s1 hall.2

theorem handleEvent_not_fatal (s : RState) (e : EvInput)
    (h : evNoFatal e = true) :
    (handleEvent s e).2.2 ≠ Outcome.fatal := by
  cases e with
  | peer a r => exact handlePeerEvent_not_fatal s a r (by simpa [evNoFatal] using h)
  | listener accepts =>
    exact handleListener_not_fatal accepts s (by simpa [evNoFatal] using h)
  | waker sp cmds =>
    cases sp
    · simp [handleEvent]
    · simp [handleEvent]

theorem dispatchEvents_not_fatal (evs : List EvInput) :
    ∀ s : RState, evs.all evNoFatal = true →
      (dispatchEvents s evs).2.2 ≠ Outcome.fatal := by
  induction evs with
  | nil =>
    intro s _
    simp [dispatchEvents]
  | cons e rest ih =>
    intro s hall
    rw [List.all_cons, Bool.and_eq_true] at hall
    unfold dispatchEvents
    rcases he : handleEvent s e with ⟨s1, t1, out⟩
    have hout : out ≠ Outcome.fatal := by
      have h2 := handleEvent_not_fatal s e hall.1
      rw [he] at h2
      exact h2
    cases out with
    | running => exact ih s1 hall.2
    | stopped => simp
    | fatal => exact absurd rfl hout
    | panicked => simp

theorem dispatchEvents_append (l1 l2 : List EvInput) :
    ∀ s : RState, dispatchEvents s (l1 ++ l2) =
      match dispatchEvents s l1 with
      | (s1, t1, Outcome.running) =>
        ((dispatchEvents s1 l2).1, t1 ++ (dispatchEvents s1 l2).2.1,
          (dispatchEvents s1 l2).2.2)
      | r => r := by
  induction l1 with
  | nil =>
    intro s
    simp [dispatchEvents]
  | cons e rest ih =>
    intro s
    rw [List.cons_append]
    conv_lhs => rw [dispatchEvents]
    conv_rhs => rw [dispatchEvents]
    rcases he : handleEvent s e with ⟨s1, t1, out⟩
    cases out with
    | running =>
      dsimp only
      rw [ih s1]
      rcases hd : dispatchEvents s1 rest with ⟨s2, t2, out2⟩
      cases out2 with
      | running =>
        dsimp only
        rw [List.append_assoc]
      | stopped => rfl
      | fatal => rfl
      | panicked => rfl
    | stopped => rfl
    | fatal => rfl
    | panicked => rfl

/-- C3 counterexample: the claim says accept errors on an individual
connection are handled locally and `run()` returns `Err` only for setup
failures and non-timeout `wait_timeout` failures; but the
`conn.set_nonblocking(true)?` in the accept loop propagates, so a single
accepted connection whose `set_nonblocking` fails makes the whole loop
return `Err`. -/
theorem c3_counterexample :
    (iterate initListen
        ⟨WaitResult.ready [EvInput.listener [⟨3, false, true⟩]], 0, []⟩).2.2
      = Outcome.fatal := by
  decide

/-- C3 (amended): per-peer read, write, accept and dial errors are handled
locally and never make `run()` return `Err`; `run()` returns `Err` for
non-timeout `wait_timeout` failures and also when `set_nonblocking` or
`local_addr` fails on an accepted connection or `local_address` fails at
outbound connect completion; shutdown observed at a waker event returns
cleanly. -/
theorem c3_error_propagation (s : RState) (env : IterEnv) :
    (envNoFatal env = true → (iterate s env).2.2 ≠ Outcome.fatal) ∧
    (∀ (now : Time) (intents : List Intent),
      (iterate s ⟨WaitResult.waitErr, now, intents⟩).2.2 = Outcome.fatal) ∧
    (∀ (evs1 : List EvInput) (cmds : List Nat) (evs2 : List EvInput) (now : Time)
        (intents : List Intent),
      (dispatchEvents s evs1).2.2 = Outcome.running →
      (iterate s ⟨WaitResult.ready (evs1 ++ EvInput.waker true cmds :: evs2), now,
        intents⟩).2.2 = Outcome.stopped) := by
  refine ⟨?_, fun now intents => rfl, ?_⟩
  · intro hnf
    unfold iterate
    cases henv : env.wait with
    | ready evs =>
      have hall : evs.all evNoFatal = true := by
        unfold envNoFatal at hnf
        rw [henv] at hnf
        exact hnf
      dsimp only
      rcases hd : dispatchEvents s evs with ⟨s1, t1, out⟩
      have hout : out ≠ Outcome.fatal := by
        have h2 := dispatchEvents_not_fatal evs s hall
        rw [hd] at h2
        exact h2
      cases out with
      | running => simp
      | stopped => simp
      | fatal => exact absurd rfl hout
      | panicked => simp
    | timedOut => simp
    | waitErr =>
      unfold envNoFatal at hnf
      rw [henv] at hnf
      cases hnf
  · intro evs1 cmds evs2 now intents hrun
    have hd2 : dispatchEvents s (evs1 ++ EvInput.waker true cmds :: evs2)
        = ((dispatchEvents s evs1).1, (dispatchEvents s evs1).2.1 ++ [],
            Outcome.stopped) := by
      rw [dispatchEvents_append]
      rcases hd : dispatchEvents s evs1 with ⟨s1, t1, out⟩
      rw [hd] at hrun
      have hr2 : out = Outcome.running := hrun
      subst hr2
      dsimp only
      rw [show dispatchEvents s1 (EvInput.waker true cmds :: evs2)
          = (s1, [], Outcome.stopped) from rfl]
    unfold iterate
    dsimp only
    rw [hd2]

/-- C3 witness: a benign iteration (peer writable with `WouldBlock`, a
clean accept, a timed-out poll) never exits the loop with an error. -/
theorem c3_error_propagation_witness :
    (envNoFatal ⟨WaitResult.ready [EvInput.listener [⟨3, true, true⟩]], 0, []⟩ = true →
      (iterate initListen
        ⟨WaitResult.ready [EvInput.listener [⟨3, true, true⟩]], 0, []⟩).2.2
        ≠ Outcome.fatal) ∧
    (∀ (evs1 : List EvInput) (cmds : List Nat) (evs2 : List EvInput) (now : Time)
        (intents : List Intent),
      (dispatchEvents initListen evs1).2.2 = Outcome.running →
      (iterate initListen ⟨WaitResult.ready (evs1 ++ EvInput.waker true cmds :: evs2), now,
        intents⟩).2.2 = Outcome.stopped) :=
  ⟨(c3_error_propagation initListen
      ⟨WaitResult.ready [EvInput.listener [⟨3, true, true⟩]], 0, []⟩).1,
    (c3_error_propagation initListen
      ⟨WaitResult.ready [EvInput.listener [⟨3, true, true⟩]], 0, []⟩).2.2⟩

/-! ### Claim C10: the writable handler's unwraps never panic -/

theorem handleWritable_not_panicked (s : RState) (a : Addr) (lo : Bool) (res : WriteResult)
    (hs : (alookup (Src.peer a) s.sources).isSome)
    (hp : (alookup a s.peers).isSome) :
    (handleWritable s a lo res).2.2 ≠ Outcome.panicked := by
  obtain ⟨i, hi⟩ := Option.isSome_iff_exists.mp hs
  obtain ⟨l, hl⟩ := Option.isSome_iff_exists.mp hp
  unfold handleWritable
  rw [hi, hl]
  dsimp only
  by_cases hif : (decide (a ∈ s.connecting) && !lo) = true
  · rw [if_pos hif]
    simp
  · rw [if_neg hif]
    cases res
    · simp
    · simp
    · simp
    · rcases hu : unregisterPeer _ a Reason.connectionError with ⟨s2, evs⟩
      simp

theorem handleListener_not_panicked (accepts : List Accept) :
    ∀ s : RState, (handleListener s accepts).2.2 ≠ Outcome.panicked := by
  induction accepts with
  | nil =>
    intro s
    simp [handleListener]
  | cons ac rest ih =>
    intro s
    unfold handleListener
    rcases ha : handleAccept s ac with ⟨s1, evs, out⟩
    have hout : out ≠ Outcome.panicked := by
      unfold handleAccept at ha
      by_cases h1 : (!ac.nonblockOk) = true
      · rw [if_pos h1] at ha
        cases ha
        simp
      · rw [if_neg h1] at ha
        by_cases h2 : (!ac.localAddrOk) = true
        · rw [if_pos h2] at ha
          cases ha
          simp
        · rw [if_neg h2] at ha
          cases ha
          simp
    cases out with
    | running => exact ih s1
    | stopped => simp
    | fatal => simp
    | panicked => exact absurd rfl hout

theorem srcs_pres_handleWritable (s : RState) (a : Addr) (lo : Bool) (res : WriteResult)
    {k : Src} (hk : k ∈ akeys s.sources) (hne : k ≠ Src.peer a) :
    k ∈ akeys (handleWritable s a lo res).1.sources := by
  unfold handleWritable
  cases hs : alookup (Src.peer a) s.sources with
  | none => exact hk
  | some i =>
    cases hp : alookup a s.peers with
    | none => exact hk
    | some l =>
      dsimp only
      by_cases hif : (decide (a ∈ s.connecting) && !lo) = true
      · rw [if_pos hif]
        exact hk
      · rw [if_neg hif]
        cases res
        · show k ∈ akeys (aupdate (Src.peer a) _ s.sources)
          rw [akeys_aupdate]
          exact hk
        · show k ∈ akeys (aupdate (Src.peer a) _ s.sources)
          rw [akeys_aupdate]
          exact hk
        · show k ∈ akeys (aupdate (Src.peer a) _ s.sources)
          rw [akeys_aupdate]
          exact hk
        · show k ∈ akeys (aremove (Src.peer a) s.sources)
          exact (mem_akeys_aremove k _ _).mpr ⟨hk, hne⟩

theorem srcs_pres_handleReadable {s : RState} {a : Addr} {res : ReadResult}
    {k : Src} (hk : k ∈ akeys s.sources) (hne : k ≠ Src.peer a) :
    k ∈ akeys (handleReadable s a res).1.sources := by
  unfold handleReadable
  cases hp : alookup a s.peers with
  | none => exact hk
  | some l =>
    cases res with
    | ok n =>
      dsimp only
      by_cases hn : n > 0
      · rw [if_pos hn]
        exact hk
      · rw [if_neg hn]
        exact (mem_akeys_aremove k _ _).mpr ⟨hk, hne⟩
    | wouldBlock => exact hk
    | err => exact (mem_akeys_aremove k _ _).mpr ⟨hk, hne⟩

theorem srcs_pres_handleListener (accepts : List Accept) :
    ∀ (s : RState) (k : Src), k ∈ akeys s.sources →
      k ∈ akeys (handleListener s accepts).1.sources := by
  induction accepts with
  | nil => exact fun s k hk => hk
  | cons ac rest ih =>
    intro s k hk
    unfold handleListener
    rcases ha : handleAccept s ac with ⟨s1, evs, out⟩
    have hk1 : k ∈ akeys s1.sources := by
      unfold handleAccept at ha
      by_cases h1 : (!ac.nonblockOk) = true
      · rw [if_pos h1] at ha
        cases ha
        exact hk
      · rw [if_neg h1] at ha
        by_cases h2 : (!ac.localAddrOk) = true
        · rw [if_pos h2] at ha
          cases ha
          exact hk
        · rw [if_neg h2] at ha
          cases ha
          exact (mem_akeys_ainsert k _ _ _).mpr (Or.inr hk)
    cases out with
    | running => exact ih s1 k hk1
    | stopped => exact hk1
    | fatal => exact hk1
    | panicked => exact hk1

theorem srcs_pres_handleEvent {s : RState} {e : EvInput} {k : Src}
    (hk : k ∈ akeys s.sources) (hne : k ≠ evSrc e) :
    k ∈ akeys (handleEvent s e).1.sources := by
  cases e with
  | peer a r =>
    have hne2 : k ≠ Src.peer a := hne
    unfold handleEvent handlePeerEvent
    dsimp only
    by_cases hinv : r.invalid = true
    · rw [if_pos hinv]
      exact (mem_akeys_aremove k _ _).mpr ⟨hk, hne2⟩
    · rw [if_neg hinv]
      by_cases hwr : r.writable = true
      · rw [if_pos hwr]
        rcases hres : handleWritable s a r.localAddrOk r.writeRes with ⟨s1, evs1, out⟩
        have hk1 : k ∈ akeys s1.sources := by
          have h2 := srcs_pres_handleWritable s a r.localAddrOk r.writeRes hk hne2
          rw [hres] at h2
          exact h2
        cases out with
        | running =>
          dsimp only
          by_cases hr : r.readable = true
          · rw [if_pos hr]
            exact srcs_pres_handleReadable hk1 hne2
          · rw [if_neg hr]
            exact hk1
        | stopped => exact hk1
        | fatal => exact hk1
        | panicked => exact hk1
      · rw [if_neg hwr]
        dsimp only
        by_cases hr : r.readable = true
        · rw [if_pos hr]
          exact srcs_pres_handleReadable hk hne2
        · rw [if_neg hr]
          exact hk
  | listener accepts => exact srcs_pres_handleListener accepts s k hk
  | waker sp cmds =>
    cases sp
    · exact hk
    · exact hk

/-- C10: whenever a writable readiness event for `Source::Peer(a)` is
dispatched in a readiness batch whose events come from currently registered
sources, at most one per source (the popol contract), and the state
satisfies the surviving coherence inclusion, the two `unwrap()` calls at
the entry of `handle_writable` find their entries — no event dispatched
earlier in the batch can unregister `a` before `a`'s own writable event is
handled, so the batch never panics. -/
theorem c10_no_unwrap_panic (evs : List EvInput) :
    ∀ s : RState, WeakCoherent s →
      (∀ a r, EvInput.peer a r ∈ evs → Src.peer a ∈ akeys s.sources) →
      (evs.map evSrc).Nodup →
      (dispatchEvents s evs).2.2 ≠ Outcome.panicked := by
  induction evs with
  | nil =>
    intro s _ _ _
    simp [dispatchEvents]
  | cons e rest ih =>
    intro s hw hreg hnd
    rw [List.map_cons, List.nodup_cons] at hnd
    unfold dispatchEvents
    rcases he : handleEvent s e with ⟨s1, t1, out⟩
    have hnp : out ≠ Outcome.panicked := by
      have h2 : (handleEvent s e).2.2 ≠ Outcome.panicked := by
        cases e with
        | peer a r =>
          have hsrc : (alookup (Src.peer a) s.sources).isSome :=
            (alookup_isSome_iff _ _).mpr (hreg a r (List.mem_cons_self _ _))
          have hpeer : (alookup a s.peers).isSome := by
            rw [alookup_isSome_iff]
            exact hw.1 a ((mem_srcPeersL_iff a s.sources).mpr
              (hreg a r (List.mem_cons_self _ _)))
          unfold handleEvent handlePeerEvent
          dsimp only
          by_cases hinv : r.invalid = true
          · rw [if_pos hinv]
            simp
          · rw [if_neg hinv]
            by_cases hwr : r.writable = true
            · rw [if_pos hwr]
              rcases hres : handleWritable s a r.localAddrOk r.writeRes with ⟨s2, evs2, out2⟩
              have hout2 : out2 ≠ Outcome.panicked := by
                have h3 := handleWritable_not_panicked s a r.localAddrOk r.writeRes hsrc hpeer
                rw [hres] at h3
                exact h3
              cases out2 with
              | running => simp
              | stopped => simp
              | fatal => simp
              | panicked => exact absurd rfl hout2
            · rw [if_neg hwr]
              simp
        | listener accepts => exact handleListener_not_panicked accepts s
        | waker sp cmds =>
          cases sp
          · simp [handleEvent]
          · simp [handleEvent]
      rw [he] at h2
      exact h2
    cases out with
    | running =>
      have hw1 : WeakCoherent s1 := by
        have h2 := wcoh_handleEvent (s := s) (e := e) hw
        rw [he] at h2
        exact h2
      have hreg1 : ∀ a r, EvInput.peer a r ∈ rest → Src.peer a ∈ akeys s1.sources := by
        intro a r hmem
        have hk : Src.peer a ∈ akeys s.sources :=
          hreg a r (List.mem_cons_of_mem _ hmem)
        have hne : Src.peer a ≠ evSrc e := by
          intro hc
          apply hnd.1
          rw [← hc]
          exact List.mem_map.mpr ⟨EvInput.peer a r, hmem, rfl⟩
        have h2 := srcs_pres_handleEvent (s := s) (e := e) hk hne
        rw [he] at h2
        exact h2
      exact ih s1 hw1 hreg1 hnd.2
    | stopped => simp
    | fatal => simp
    | panicked => exact absurd rfl hnp

/-- C10 witness: a concrete batch — a writable event for registered peer 5
followed by a waker event — dispatches without reaching an `unwrap`
panic. -/
theorem c10_no_unwrap_panic_witness :
    (dispatchEvents (registerPeer initState 5 Link.outbound)
        [EvInput.peer 5 ⟨false, true, false, false, false, true, WriteResult.wouldBlock,
          ReadResult.wouldBlock⟩,
         EvInput.waker false [2]]).2.2 ≠ Outcome.panicked :=
  c10_no_unwrap_panic _ (registerPeer initState 5 Link.outbound)
    (by decide)
    (by
      intro a r hmem
      simp only [List.mem_cons, List.not_mem_nil, or_false] at hmem
      rcases hmem with h | h
      · injection h with h1 h2
        subst h1
        decide
      · injection h)
    (by decide)

/-! ### Claim C2: causal ordering per peer -/

theorem runPhase_append (t1 t2 : List PEvent) :
    ∀ p : Phase, runPhase p (t1 ++ t2) =
      match runPhase p t1 with
      | some q => runPhase q t2
      | none => none := by
  induction t1 with
  | nil => intro p; rfl
  | cons e rest ih =>
    intro p
    rw [List.cons_append]
    conv_lhs => rw [runPhase]
    conv_rhs => rw [runPhase]
    cases hsp : stepPhase p e with
    | some p1 => exact ih p1
    | none => rfl

theorem projAddr_append (a : Addr) (t1 t2 : List PEvent) :
    projAddr a (t1 ++ t2) = projAddr a t1 ++ projAddr a t2 := by
  simp [projAddr, List.filter_append]

theorem phaseOf_eq_of_mem_iff {s s' : RState} {a : Addr}
    (hp : a ∈ peerKeys s' ↔ a ∈ peerKeys s)
    (hc : a ∈ s'.connecting ↔ a ∈ s.connecting) :
    phaseOf s' a = phaseOf s a := by
  unfold phaseOf
  by_cases h1 : a ∈ peerKeys s
  · rw [if_pos h1, if_pos (hp.mpr h1)]
    by_cases h2 : a ∈ s.connecting
    · rw [if_pos h2, if_pos (hc.mpr h2)]
    · rw [if_neg h2, if_neg (fun hx => h2 (hc.mp hx))]
  · rw [if_neg h1, if_neg (fun hx => h1 (hp.mp hx))]

theorem phaseOf_unregister_self (s : RState) (a : Addr) (r : Reason) :
    phaseOf (unregisterPeer s a r).1 a = Phase.idle := by
  unfold phaseOf
  rw [if_neg]
  intro hx
  exact ((mem_peerKeys_unregisterPeer).mp hx).2 rfl

theorem phaseOf_unregister_ne {s : RState} {a b : Addr} (r : Reason) (hab : a ≠ b) :
    phaseOf (unregisterPeer s b r).1 a = phaseOf s a := by
  refine phaseOf_eq_of_mem_iff ?_ ?_
  · rw [mem_peerKeys_unregisterPeer]
    exact ⟨fun h => h.1, fun h => ⟨h, hab⟩⟩
  · rw [mem_connecting_unregisterPeer]
    exact ⟨fun h => h.1, fun h => ⟨h, hab⟩⟩

theorem stepPhase_disc (p : Phase) (b : Addr) (r : Reason) :
    stepPhase p (PEvent.disconnectedEv b r) = some Phase.idle := by
  cases p <;> rfl

theorem phaseInv_refl (s : RState) (a : Addr) (out : Outcome) : PhaseInv s s [] out a :=
  ⟨phaseOf s a, rfl, fun _ => rfl⟩

theorem phaseInv_unregisterPeer (s : RState) (b : Addr) (r : Reason) (a : Addr) :
    PhaseInv s (unregisterPeer s b r).1 (unregisterPeer s b r).2 Outcome.running a := by
  by_cases hab : a = b
  · subst hab
    refine ⟨Phase.idle, ?_, fun _ => (phaseOf_unregister_self s a r).symm⟩
    rw [show projAddr a (unregisterPeer s a r).2 = [PEvent.disconnectedEv a r] from by
      simp [unregisterPeer, projAddr, isAddrEv]]
    unfold runPhase
    rw [stepPhase_disc]
    rfl
  · refine ⟨phaseOf s a, ?_, fun _ => (phaseOf_unregister_ne r hab).symm⟩
    rw [show projAddr a (unregisterPeer s b r).2 = [] from by
      simp [unregisterPeer, projAddr, isAddrEv, hab]]
    rfl

theorem phaseOf_mk (s : RState) (c : List Addr) (ss : List (Src × Interest)) (a : Addr) :
    phaseOf { s with connecting := c, sources := ss } a
      = if a ∈ peerKeys s then (if a ∈ c then Phase.connecting else Phase.connected)
        else Phase.idle := rfl

theorem phaseInv_handleReadable (s : RState) (b : Addr) (res : ReadResult) (a : Addr)
    (hv : ∀ n, res = ReadResult.ok n → 0 < n → b ∉ s.connecting) :
    PhaseInv s (handleReadable s b res).1 (handleReadable s b res).2 Outcome.running a := by
  unfold handleReadable
  cases hp : alookup b s.peers with
  | none => exact phaseInv_refl s a _
  | some l =>
    cases res with
    | ok n =>
      dsimp only
      by_cases hn : n > 0
      · rw [if_pos hn]
        by_cases hab : a = b
        · subst hab
          have hmem : a ∈ peerKeys s := by
            unfold peerKeys
            rw [← alookup_isSome_iff, hp]
            rfl
          have hnc : a ∉ s.connecting := hv n rfl hn
          refine ⟨Phase.connected, ?_, fun _ => ?_⟩
          · rw [show projAddr a [PEvent.receivedBytesEv a n] = [PEvent.receivedBytesEv a n]
              from by simp [projAddr, isAddrEv]]
            unfold phaseOf
            rw [if_pos hmem, if_neg hnc]
            rfl
          · unfold phaseOf
            rw [if_pos hmem, if_neg hnc]
        · refine ⟨phaseOf s a, ?_, fun _ => rfl⟩
          rw [show projAddr a [PEvent.receivedBytesEv b n] = [] from by
            simp [projAddr, isAddrEv, hab]]
          rfl
      · rw [if_neg hn]
        exact phaseInv_unregisterPeer _ b Reason.peerDisconnected a
    | wouldBlock => exact phaseInv_refl s a _
    | err => exact phaseInv_unregisterPeer _ b Reason.connectionError a

theorem phaseOf_removeConnecting {s : RState} {a b : Addr} {ss : List (Src × Interest)}
    {sh : List Addr} (h : a = b → b ∉ s.connecting) :
    phaseOf { s with connecting := removeS b s.connecting, sources := ss, shut := sh } a
      = phaseOf s a := by
  refine phaseOf_eq_of_mem_iff Iff.rfl ?_
  show a ∈ removeS b s.connecting ↔ a ∈ s.connecting
  rw [mem_removeS]
  constructor
  · exact fun hx => hx.1
  · intro hx
    refine ⟨hx, ?_⟩
    intro hab
    exact (h hab) (hab ▸ hx)

theorem phaseInv_handleWritable (s : RState) (b : Addr) (lo : Bool) (res : WriteResult)
    (a : Addr) :
    PhaseInv s (handleWritable s b lo res).1 (handleWritable s b lo res).2.1
      (handleWritable s b lo res).2.2 a := by
  unfold handleWritable
  cases hs : alookup (Src.peer b) s.sources with
  | none => exact phaseInv_refl s a _
  | some i =>
    cases hpeer : alookup b s.peers with
    | none => exact phaseInv_refl s a _
    | some l =>
      have hbp : b ∈ peerKeys s := by
        unfold peerKeys
        rw [← alookup_isSome_iff, hpeer]
        rfl
      dsimp only
      by_cases hif : (decide (b ∈ s.connecting) && !lo) = true
      · rw [if_pos hif]
        exact ⟨phaseOf s a, rfl, fun h => by cases h⟩
      · rw [if_neg hif]
        by_cases hbc : b ∈ s.connecting
        · have hdec : decide (b ∈ s.connecting) = true := by simp [hbc]
          rw [hdec]
          have hpb : phaseOf s b = Phase.connecting := by
            unfold phaseOf
            rw [if_pos hbp, if_pos hbc]
          cases res with
          | ok =>
            dsimp only
            by_cases hab : a = b
            · subst hab
              refine ⟨Phase.connected, ?_, fun _ => ?_⟩
              · rw [show projAddr a (if true = true then [PEvent.connectedEv a l] else [])
                    = [PEvent.connectedEv a l] from by simp [projAddr, isAddrEv]]
                rw [hpb]
                rfl
              · rw [phaseOf_mk]
                rw [if_pos hbp, if_neg (by simp [mem_removeS])]
            · refine ⟨phaseOf s a, ?_, fun _ => ?_⟩
              · rw [show projAddr a (if true = true then [PEvent.connectedEv b l] else [])
                    = [] from by simp [projAddr, isAddrEv, hab]]
                rfl
              · rw [phaseOf_removeConnecting (fun hx => absurd hx hab)]
          | wouldBlock =>
            dsimp only
            by_cases hab : a = b
            · subst hab
              refine ⟨Phase.connected, ?_, fun _ => ?_⟩
              · rw [show projAddr a (if true = true then [PEvent.connectedEv a l] else [])
                    = [PEvent.connectedEv a l] from by simp [projAddr, isAddrEv]]
                rw [hpb]
                rfl
              · rw [phaseOf_mk]
                rw [if_pos hbp, if_neg (by simp [mem_removeS])]
            · refine ⟨phaseOf s a, ?_, fun _ => ?_⟩
              · rw [show projAddr a (if true = true then [PEvent.connectedEv b l] else [])
                    = [] from by simp [projAddr, isAddrEv, hab]]
                rfl
              · rw [phaseOf_removeConnecting (fun hx => absurd hx hab)]
          | writeZero =>
            dsimp only
            by_cases hab : a = b
            · subst hab
              refine ⟨Phase.connected, ?_, fun _ => ?_⟩
              · rw [show projAddr a (if true = true then [PEvent.connectedEv a l] else [])
                    = [PEvent.connectedEv a l] from by simp [projAddr, isAddrEv]]
                rw [hpb]
                rfl
              · rw [phaseOf_mk]
                rw [if_pos hbp, if_neg (by simp [mem_removeS])]
            · refine ⟨phaseOf s a, ?_, fun _ => ?_⟩
              · rw [show projAddr a (if true = true then [PEvent.connectedEv b l] else [])
                    = [] from by simp [projAddr, isAddrEv, hab]]
                rfl
              · rw [phaseOf_removeConnecting (fun hx => absurd hx hab)]
          | otherErr =>
            dsimp only
            by_cases hab : a = b
            · subst hab
              refine ⟨Phase.idle, ?_, fun _ => ?_⟩
              · rw [show projAddr a ((if true = true then [PEvent.connectedEv a l] else [])
                      ++ (unregisterPeer _ a Reason.connectionError).2)
                    = [PEvent.connectedEv a l, PEvent.disconnectedEv a Reason.connectionError]
                    from by simp [projAddr, isAddrEv, unregisterPeer]]
                rw [hpb]
                rfl
              · exact (phaseOf_unregister_self _ a Reason.connectionError).symm
            · refine ⟨phaseOf s a, ?_, fun _ => ?_⟩
              · rw [show projAddr a ((if true = true then [PEvent.connectedEv b l] else [])
                      ++ (unregisterPeer _ b Reason.connectionError).2)
                    = [] from by simp [projAddr, isAddrEv, unregisterPeer, hab]]
                rfl
              · rw [phaseOf_unregister_ne Reason.connectionError hab]
                rw [phaseOf_removeConnecting (fun hx => absurd hx hab)]
        · have hdec : decide (b ∈ s.connecting) = false := by simp [hbc]
          rw [hdec]
          cases res with
          | ok =>
            dsimp only
            refine ⟨phaseOf s a, ?_, fun _ => ?_⟩
            · rw [show projAddr a (if false = true then [PEvent.connectedEv b l] else [])
                  = [] from by simp [projAddr]]
              rfl
            · rw [phaseOf_removeConnecting (fun hx => hx ▸ hbc)]
          | wouldBlock =>
            dsimp only
            refine ⟨phaseOf s a, ?_, fun _ => ?_⟩
            · rw [show projAddr a (if false = true then [PEvent.connectedEv b l] else [])
                  = [] from by simp [projAddr]]
              rfl
            · rw [phaseOf_removeConnecting (fun hx => hx ▸ hbc)]
          | writeZero =>
            dsimp only
            refine ⟨phaseOf s a, ?_, fun _ => ?_⟩
            · rw [show projAddr a (if false = true then [PEvent.connectedEv b l] else [])
                  = [] from by simp [projAddr]]
              rfl
            · rw [phaseOf_removeConnecting (fun hx => hx ▸ hbc)]
          | otherErr =>
            dsimp only
            by_cases hab : a = b
            · subst hab
              have hpb2 : phaseOf s a = Phase.connected := by
                unfold phaseOf
                rw [if_pos hbp, if_neg hbc]
              refine ⟨Phase.idle, ?_, fun _ => ?_⟩
              · rw [show projAddr a ((if false = true then [PEvent.connectedEv a l] else [])
                      ++ (unregisterPeer _ a Reason.connectionError).2)
                    = [PEvent.disconnectedEv a Reason.connectionError]
                    from by simp [projAddr, isAddrEv, unregisterPeer]]
                rw [hpb2]
                rfl
              · exact (phaseOf_unregister_self _ a Reason.connectionError).symm
            · refine ⟨phaseOf s a, ?_, fun _ => ?_⟩
              · rw [show projAddr a ((if false = true then [PEvent.connectedEv b l] else [])
                      ++ (unregisterPeer _ b Reason.connectionError).2)
                    = [] from by simp [projAddr, isAddrEv, unregisterPeer, hab]]
                rfl
              · rw [phaseOf_unregister_ne Reason.connectionError hab]
                rw [phaseOf_removeConnecting (fun hx => absurd hx hab)]

theorem PhaseInv.comp {s1 s2 s3 : RState} {t1 t2 : List PEvent} {out : Outcome} {a : Addr}
    (h1 : PhaseInv s1 s2 t1 Outcome.running a) (h2 : PhaseInv s2 s3 t2 out a) :
    PhaseInv s1 s3 (t1 ++ t2) out a := by
  obtain ⟨p1, hp1, he1⟩ := h1
  obtain ⟨p2, hp2, he2⟩ := h2
  refine ⟨p2, ?_, he2⟩
  rw [projAddr_append, runPhase_append, hp1, he1 rfl]
  exact hp2

theorem projAddr_cons_tick (a : Addr) (t : List PEvent) :
    projAddr a (PEvent.tickEv :: t) = projAddr a t := by
  simp [projAddr, List.filter_cons, isAddrEv]

theorem projAddr_commands (a : Addr) (cmds : List Nat) :
    projAddr a (cmds.map PEvent.commandEv) = [] := by
  induction cmds with
  | nil => rfl
  | cons c rest ih => simp [projAddr, List.filter_cons, isAddrEv]

theorem phaseInv_handleAccept (s : RState) (ac : Accept) (a : Addr)
    (hw : WeakCoherent s)
    (hv : (handleAccept s ac).2.2 = Outcome.running → ac.addr ∉ peerKeys s) :
    PhaseInv s (handleAccept s ac).1 (handleAccept s ac).2.1 (handleAccept s ac).2.2 a := by
  unfold handleAccept
  by_cases h1 : (!ac.nonblockOk) = true
  · rw [if_pos h1]
    exact ⟨phaseOf s a, rfl, fun h => by cases h⟩
  · rw [if_neg h1]
    by_cases h2 : (!ac.localAddrOk) = true
    · rw [if_pos h2]
      exact ⟨phaseOf s a, rfl, fun h => by cases h⟩
    · rw [if_neg h2]
      have hnotin : ac.addr ∉ peerKeys s := by
        apply hv
        unfold handleAccept
        rw [if_neg h1, if_neg h2]
      by_cases hab : a = ac.addr
      · have hidle : phaseOf s a = Phase.idle := by
          unfold phaseOf
          rw [if_neg (fun hx => hnotin (hab ▸ hx))]
        have hnc : a ∉ s.connecting := fun hx => hnotin (hab ▸ hw.2 a hx)
        refine ⟨Phase.connected, ?_, fun _ => ?_⟩
        · rw [show projAddr a [PEvent.connectedEv ac.addr Link.inbound]
              = [PEvent.connectedEv ac.addr Link.inbound] from by
            simp [projAddr, isAddrEv, hab]]
          rw [hidle]
          rfl
        · unfold phaseOf
          rw [if_pos (mem_peerKeys_registerPeer.mpr (Or.inl hab))]
          rw [connecting_registerPeer]
          rw [if_neg hnc]
      · refine ⟨phaseOf s a, ?_, fun _ => ?_⟩
        · rw [show projAddr a [PEvent.connectedEv ac.addr Link.inbound] = [] from by
            simp [projAddr, isAddrEv, hab]]
          rfl
        · refine (phaseOf_eq_of_mem_iff ?_ ?_).symm
          · rw [mem_peerKeys_registerPeer]
            simp [hab]
          · rw [connecting_registerPeer]

theorem phaseInv_handleListener (accepts : List Accept) :
    ∀ s : RState, WeakCoherent s → validAccepts s accepts = true → ∀ a : Addr,
      PhaseInv s (handleListener s accepts).1 (handleListener s accepts).2.1
        (handleListener s accepts).2.2 a := by
  induction accepts with
  | nil =>
    intro s _ _ a
    exact phaseInv_refl s a _
  | cons ac rest ih =>
    intro s hw hv a
    unfold handleListener
    unfold validAccepts at hv
    rcases ha : handleAccept s ac with ⟨s1, evs, out⟩
    rw [ha] at hv
    have inv1 : PhaseInv s s1 evs out a := by
      have h2 := phaseInv_handleAccept s ac a hw (fun hr => by
        rw [ha] at hr
        cases out with
        | running =>
          rw [Bool.and_eq_true] at hv
          have h3 := hv.1
          rw [Bool.not_eq_true', decide_eq_false_iff_not] at h3
          exact h3
        | stopped => cases hr
        | fatal => cases hr
        | panicked => cases hr)
      rw [ha] at h2
      exact h2
    cases out with
    | running =>
      rw [Bool.and_eq_true] at hv
      have hw1 : WeakCoherent s1 := by
        have h2 := wcoh_handleAccept s ac hw
        rw [ha] at h2
        exact h2
      exact PhaseInv.comp inv1 (ih s1 hw1 hv.2 a)
    | stopped => exact inv1
    | fatal => exact inv1
    | panicked => exact inv1

theorem validPeerEv_read {s : RState} {b : Addr} {r : PeerReadiness} {s1 : RState}
    {evs1 : List PEvent}
    (hinv : ¬ r.invalid = true)
    (hwres : (if r.writable = true then handleWritable s b r.localAddrOk r.writeRes
        else (s, [], Outcome.running)) = (s1, evs1, Outcome.running))
    (hrd : r.readable = true)
    (hv : validPeerEv s b r = true) :
    ∀ n, r.readRes = ReadResult.ok n → 0 < n → b ∉ s1.connecting := by
  intro n hok hn
  unfold validPeerEv at hv
  rw [if_neg hinv, hwres] at hv
  dsimp only at hv
  rw [if_pos hrd, hok] at hv
  rw [Bool.or_eq_true] at hv
  rcases hv with h | h
  · exact absurd (of_decide_eq_true h) (Nat.pos_iff_ne_zero.mp hn)
  · intro hmem
    rw [Bool.not_eq_true', decide_eq_false_iff_not] at h
    exact h hmem

theorem phaseInv_handlePeerEvent (s : RState) (b : Addr) (r : PeerReadiness) (a : Addr)
    (hv : validPeerEv s b r = true) :
    PhaseInv s (handlePeerEvent s b r).1 (handlePeerEvent s b r).2.1
      (handlePeerEvent s b r).2.2 a := by
  unfold handlePeerEvent
  by_cases hinv : r.invalid = true
  · rw [if_pos hinv]
    exact ⟨phaseOf s a, rfl, fun _ => rfl⟩
  · rw [if_neg hinv]
    rcases hres : (if r.writable = true then handleWritable s b r.localAddrOk r.writeRes
        else (s, [], Outcome.running)) with ⟨s1, evs1, out1⟩
    have inv1 : PhaseInv s s1 evs1 out1 a := by
      by_cases hwr : r.writable = true
      · rw [if_pos hwr] at hres
        have h2 := phaseInv_handleWritable s b r.localAddrOk r.writeRes a
        rw [hres] at h2
        exact h2
      · rw [if_neg hwr] at hres
        cases hres
        exact phaseInv_refl s a _
    cases out1 with
    | running =>
      dsimp only
      by_cases hrd : r.readable = true
      · rw [if_pos hrd]
        have hv2 : ∀ n, r.readRes = ReadResult.ok n → 0 < n → b ∉ s1.connecting :=
          validPeerEv_read hinv hres hrd hv
        exact PhaseInv.comp inv1 (phaseInv_handleReadable s1 b r.readRes a hv2)
      · rw [if_neg hrd]
        rw [show (evs1 ++ (s1, ([] : List PEvent)).2) = evs1 from by simp]
        exact inv1
    | stopped => exact inv1
    | fatal => exact inv1
    | panicked => exact inv1

theorem phaseInv_handleEvent (s : RState) (e : EvInput) (a : Addr)
    (hw : WeakCoherent s) (hv : validEvent s e = true) :
    PhaseInv s (handleEvent s e).1 (handleEvent s e).2.1 (handleEvent s e).2.2 a := by
  cases e with
  | peer b r =>
    exact phaseInv_handlePeerEvent s b r a (by simpa [validEvent] using hv)
  | listener accepts =>
    exact phaseInv_handleListener accepts s hw (by simpa [validEvent] using hv) a
  | waker sp cmds =>
    cases sp
    · refine ⟨phaseOf s a, ?_, fun _ => rfl⟩
      rw [show projAddr a (handleEvent s (EvInput.waker false cmds)).2.1
          = projAddr a (cmds.map PEvent.commandEv) from rfl]
      rw [projAddr_commands]
      rfl
    · exact ⟨phaseOf s a, rfl, fun h => by cases h⟩

theorem phaseInv_dispatchEvents (evs : List EvInput) :
    ∀ s : RState, WeakCoherent s → validEvents s evs = true → ∀ a : Addr,
      PhaseInv s (dispatchEvents s evs).1 (dispatchEvents s evs).2.1
        (dispatchEvents s evs).2.2 a := by
  induction evs with
  | nil =>
    intro s _ _ a
    exact phaseInv_refl s a _
  | cons e rest ih =>
    intro s hw hv a
    unfold validEvents at hv
    rw [Bool.and_eq_true] at hv
    unfold dispatchEvents
    rcases he : handleEvent s e with ⟨s1, t1, out⟩
    have inv1 : PhaseInv s s1 t1 out a := by
      have h2 := phaseInv_handleEvent s e a hw hv.1
      rw [he] at h2
      exact h2
    cases out with
    | running =>
      have hw1 : WeakCoherent s1 := by
        have h2 := wcoh_handleEvent (s := s) (e := e) hw
        rw [he] at h2
        exact h2
      have hv2 : validEvents s1 rest = true := by
        have h2 := hv.2
        rw [he] at h2
        exact h2
      exact PhaseInv.comp inv1 (ih s1 hw1 hv2 a)
    | stopped => exact inv1
    | fatal => exact inv1
    | panicked => exact inv1

theorem phaseInv_processOne (s : RState) (now : Time) (i : Intent) (a : Addr)
    (hv : validIntent s i = true) :
    PhaseInv s (processOne s now i).1 (processOne s now i).2 Outcome.running a := by
  cases i with
  | write b => exact ⟨phaseOf s a, rfl, fun _ => rfl⟩
  | connect b res =>
    cases res with
    | ok =>
      have hnotin : b ∉ peerKeys s := by
        have h2 : (!(decide (b ∈ peerKeys s))) = true := by simpa [validIntent] using hv
        rw [Bool.not_eq_true', decide_eq_false_iff_not] at h2
        exact h2
      by_cases hab : a = b
      · subst hab
        refine ⟨Phase.connecting, ?_, fun _ => ?_⟩
        · rw [show projAddr a (processOne s now (Intent.connect a DialResult.ok)).2
              = [PEvent.attemptedEv a] from by simp [processOne, projAddr, isAddrEv]]
          unfold phaseOf
          rw [if_neg hnotin]
          rfl
        · show Phase.connecting = phaseOf
            { registerPeer s a Link.outbound with
              connecting := insertS a (registerPeer s a Link.outbound).connecting } a
          rw [phaseOf_mk]
          rw [if_pos (mem_peerKeys_registerPeer.mpr (Or.inl rfl))]
          rw [if_pos ((mem_insertS _ _ _).mpr (Or.inl rfl))]
      · refine ⟨phaseOf s a, ?_, fun _ => ?_⟩
        · rw [show projAddr a (processOne s now (Intent.connect b DialResult.ok)).2
              = [] from by simp [processOne, projAddr, isAddrEv, hab]]
          rfl
        · show phaseOf s a = phaseOf
            { registerPeer s b Link.outbound with
              connecting := insertS b (registerPeer s b Link.outbound).connecting } a
          refine (phaseOf_eq_of_mem_iff ?_ ?_).symm
          · show a ∈ peerKeys (registerPeer s b Link.outbound) ↔ a ∈ peerKeys s
            rw [mem_peerKeys_registerPeer]
            simp [hab]
          · show a ∈ insertS b (registerPeer s b Link.outbound).connecting
              ↔ a ∈ s.connecting
            rw [mem_insertS, connecting_registerPeer]
            simp [hab]
    | alreadyExists => exact phaseInv_refl s a _
    | err =>
      have hnotin : b ∉ peerKeys s := by
        have h2 : (!(decide (b ∈ peerKeys s))) = true := by simpa [validIntent] using hv
        rw [Bool.not_eq_true', decide_eq_false_iff_not] at h2
        exact h2
      by_cases hab : a = b
      · subst hab
        have hidle : phaseOf s a = Phase.idle := by
          unfold phaseOf
          rw [if_neg hnotin]
        refine ⟨Phase.idle, ?_, fun _ => hidle.symm⟩
        rw [show projAddr a (processOne s now (Intent.connect a DialResult.err)).2
            = [PEvent.disconnectedEv a Reason.connectionError] from by
          simp [processOne, projAddr, isAddrEv]]
        rw [hidle]
        rfl
      · refine ⟨phaseOf s a, ?_, fun _ => rfl⟩
        rw [show projAddr a (processOne s now (Intent.connect b DialResult.err)).2
            = [] from by simp [processOne, projAddr, isAddrEv, hab]]
        rfl
  | disconnect b r =>
    cases hp : alookup b s.peers with
    | some l =>
      have h2 := phaseInv_unregisterPeer { s with shut := s.shut ++ [b] } b r a
      simp only [processOne, hp]
      exact h2
    | none =>
      simp only [processOne, hp]
      exact phaseInv_refl s a _
  | wakeup d => exact ⟨phaseOf s a, rfl, fun _ => rfl⟩
  | event e2 => exact phaseInv_refl s a _

theorem phaseInv_process (intents : List Intent) (now : Time) :
    ∀ s : RState, validIntents now s intents = true → ∀ a : Addr,
      PhaseInv s (process s now intents).1 (process s now intents).2 Outcome.running a := by
  induction intents with
  | nil =>
    intro s _ a
    exact phaseInv_refl s a _
  | cons i rest ih =>
    intro s hv a
    unfold validIntents at hv
    rw [Bool.and_eq_true] at hv
    exact PhaseInv.comp (phaseInv_processOne s now i a hv.1)
      (ih (processOne s now i).1 hv.2 a)

theorem phaseInv_iterate (s : RState) (env : IterEnv) (a : Addr)
    (hw : WeakCoherent s) (hv : validIter s env = true) :
    PhaseInv s (iterate s env).1 (iterate s env).2.1 (iterate s env).2.2 a := by
  unfold iterate
  cases henv : env.wait with
  | ready evs =>
    unfold validIter at hv
    rw [henv, Bool.and_eq_true] at hv
    dsimp only
    rcases hd : dispatchEvents s evs with ⟨s1, t1, out⟩
    have inv1 : PhaseInv s s1 t1 out a := by
      have h2 := phaseInv_dispatchEvents evs s hw hv.1 a
      rw [hd] at h2
      exact h2
    cases out with
    | running =>
      have hvi : validIntents env.now s1 env.intents = true := by
        have h2 := hv.2
        rw [hd] at h2
        exact h2
      obtain ⟨p, hp, hph⟩ :=
        PhaseInv.comp inv1 (phaseInv_process env.intents env.now s1 hvi a)
      refine ⟨p, ?_, hph⟩
      rw [projAddr_cons_tick]
      exact hp
    | stopped =>
      obtain ⟨p, hp, hph⟩ := inv1
      exact ⟨p, by rw [projAddr_cons_tick]; exact hp, fun h => by cases h⟩
    | fatal =>
      obtain ⟨p, hp, hph⟩ := inv1
      exact ⟨p, by rw [projAddr_cons_tick]; exact hp, fun h => by cases h⟩
    | panicked =>
      obtain ⟨p, hp, hph⟩ := inv1
      exact ⟨p, by rw [projAddr_cons_tick]; exact hp, fun h => by cases h⟩
  | timedOut =>
    unfold validIter at hv
    rw [henv] at hv
    dsimp only
    obtain ⟨p, hp, hph⟩ := phaseInv_process env.intents env.now
      { s with timeouts := (tmWake s.timeouts env.now).1 } hv a
    refine ⟨p, ?_, hph⟩
    rw [projAddr_cons_tick, projAddr_append]
    rw [show projAddr a (if (tmWake s.timeouts env.now).2.isEmpty then ([] : List PEvent)
        else [PEvent.wakeEv]) = [] from by
      by_cases h : (tmWake s.timeouts env.now).2.isEmpty
      · simp [h, projAddr]
      · simp [h, projAddr, isAddrEv]]
    rw [List.nil_append]
    exact hp
  | waitErr =>
    refine ⟨phaseOf s a, ?_, fun h => by cases h⟩
    rw [projAddr_cons_tick]
    rfl

theorem phaseInv_runLoop (envs : List IterEnv) :
    ∀ s : RState, WeakCoherent s → validRun s envs = true → ∀ a : Addr,
      PhaseInv s (runLoop s envs).1 (runLoop s envs).2.1 (runLoop s envs).2.2 a := by
  induction envs with
  | nil =>
    intro s _ _ a
    exact phaseInv_refl s a _
  | cons env rest ih =>
    intro s hw hv a
    unfold validRun at hv
    rw [Bool.and_eq_true] at hv
    unfold runLoop
    rcases hi : iterate s env with ⟨s1, t1, out⟩
    have inv1 : PhaseInv s s1 t1 out a := by
      have h2 := phaseInv_iterate s env a hw hv.1
      rw [hi] at h2
      exact h2
    cases out with
    | running =>
      have hw1 : WeakCoherent s1 := by
        have h2 := wcoh_iterate s env hw
        rw [hi] at h2
        exact h2
      have hv1 : validRun s1 rest = true := by
        have h2 := hv.2
        rw [hi] at h2
        exact h2
      exact PhaseInv.comp inv1 (ih s1 hw1 hv1 a)
    | stopped => exact inv1
    | fatal => exact inv1
    | panicked => exact inv1

/-- C2 counterexample: the claimed regular expression `attempted? connected
received_bytes* disconnected` requires `connected` before `disconnected`
(and the claim says `attempted` precedes a dial-failure `disconnected`);
but a failed dial emits a bare `disconnected` with no `attempted` and no
`connected`, which the claimed automaton rejects outright. -/
theorem c2_counterexample :
    projAddr 7 (runLoop initState
        [⟨WaitResult.timedOut, 0, [Intent.connect 7 DialResult.err]⟩]).2.1
      = [PEvent.disconnectedEv 7 Reason.connectionError] ∧
    claimedRun CPhase.start (projAddr 7 (runLoop initState
        [⟨WaitResult.timedOut, 0, [Intent.connect 7 DialResult.err]⟩]).2.1) = none := by
  decide

/-- C2 (amended): under the OS/TCP and dialer contracts (`validRun`: no
data readable before a non-blocking connect completes, accepted and dialed
addresses are not currently registered peers), the callbacks the reactor
makes for any address `a` form a word accepted by the per-address episode
automaton `stepPhase`: a concatenation of connection episodes, each
`attempted (connected received_bytes*)? disconnected`, `connected
received_bytes* disconnected`, or a bare `disconnected` (dial failure,
which emits no `attempted`), the last episode possibly incomplete; while
the loop is still running, the automaton state equals the address's phase
in the reactor state. -/
theorem c2_causal_ordering (envs : List IterEnv) (a : Addr)
    (hv : validRun initState envs = true) :
    ∃ p : Phase, runPhase Phase.idle (projAddr a (runLoop initState envs).2.1) = some p ∧
      ((runLoop initState envs).2.2 = Outcome.running →
        p = phaseOf (runLoop initState envs).1 a) := by
  have h0 : phaseOf initState a = Phase.idle := by
    unfold phaseOf
    rw [if_neg (by simp [initState, peerKeys, akeys])]
  have h := phaseInv_runLoop envs initState (by decide) hv a
  unfold PhaseInv at h
  rw [h0] at h
  exact h

/-- C2 witness: a full outbound session — dial, connect completion on
writable, received bytes, protocol-initiated disconnect — is accepted by
the episode automaton. -/
theorem c2_causal_ordering_witness :
    ∃ p : Phase, runPhase Phase.idle (projAddr 7 (runLoop initState
        [⟨WaitResult.timedOut, 0, [Intent.connect 7 DialResult.ok]⟩,
         ⟨WaitResult.ready [EvInput.peer 7
            ⟨true, true, false, false, false, true, WriteResult.ok, ReadResult.ok 5⟩],
           1, [Intent.disconnect 7 Reason.protocolReason]⟩]).2.1) = some p ∧
      ((runLoop initState
        [⟨WaitResult.timedOut, 0, [Intent.connect 7 DialResult.ok]⟩,
         ⟨WaitResult.ready [EvInput.peer 7
            ⟨true, true, false, false, false, true, WriteResult.ok, ReadResult.ok 5⟩],
           1, [Intent.disconnect 7 Reason.protocolReason]⟩]).2.2 = Outcome.running →
        p = phaseOf (runLoop initState
        [⟨WaitResult.timedOut, 0, [Intent.connect 7 DialResult.ok]⟩,
         ⟨WaitResult.ready [EvInput.peer 7
            ⟨true, true, false, false, false, true, WriteResult.ok, ReadResult.ok 5⟩],
           1, [Intent.disconnect 7 Reason.protocolReason]⟩]).1 7) :=
  c2_causal_ordering
    [⟨WaitResult.timedOut, 0, [Intent.connect 7 DialResult.ok]⟩,
     ⟨WaitResult.ready [EvInput.peer 7
        ⟨true, true, false, false, false, true, WriteResult.ok, ReadResult.ok 5⟩],
       1, [Intent.disconnect 7 Reason.protocolReason]⟩] 7 (by decide)

end Nakamoto
